import Mathlib

/-!
# Verification of the MindFry SDK protocol transport layer

Shallow embedding of the two core components of the `mindfry-sdk`
repository:

* `FrameDecoder` (`packages/client/src/framer.ts`): reassembles
  length-prefixed frames from an arbitrarily fragmented byte stream.
* `RequestPipeline` (`packages/client/src/pipeline.ts`): FIFO request
  pipelining over a single ordered connection, with backpressure,
  timeouts and failure propagation.

Bytes are modelled as `Nat` (values `0..255` in well-formed data); byte
strings as `List Nat`.  JavaScript numbers touched by bitwise operators
are modelled as `Int` together with the ECMAScript `ToInt32` conversion.
Promise continuations are modelled by an outcome slot per request which,
following JS promise semantics, can be settled at most once
(`settleOnce`).  Each `send` call is identified by a creation index
(`uid`), the position of its outcome slot.
-/

/-! ## Frame decoder (`packages/client/src/framer.ts`) -/

/-- Events emitted by `FrameDecoder.push`: a completed frame payload, or
the fatal oversize decode error. -/
inductive DecodeEvent where
  | frame (payload : List Nat)
  | error
  deriving DecidableEq, Repr

/-- State of `FrameDecoder`: the internal byte buffer plus the
configured maximum frame size. -/
structure FrameDecoder where
  buffer : List Nat
  maxFrameSize : Nat
  deriving DecidableEq, Repr

/-- Constructor `new FrameDecoder(maxFrameSize)`: empty buffer. -/
def FrameDecoder.new (maxFrameSize : Nat) : FrameDecoder :=
  { buffer := [], maxFrameSize := maxFrameSize }

/-- Model of `buffer.readUInt32LE(0)`: little-endian u32 read of the first four
bytes.  Only ever consulted by the decoder when the buffer holds at
least 4 bytes. -/
def readUInt32LE : List Nat → Nat
  | b0 :: b1 :: b2 :: b3 :: _ => b0 + 256 * b1 + 65536 * b2 + 16777216 * b3
  | _ => 0

/-- One pass of the `while (this.buffer.length >= 4)` loop of
`FrameDecoder.push`, with an explicit fuel bound on the number of loop
iterations (each iteration consumes at least 4 buffered bytes, so
`buf.length` fuel always suffices; see `drainFuel_congr`).  Returns the
emitted events (in emission order) and the remaining buffer.  On an
oversized declared length it emits the error event and clears the
buffer (`return` in the source exits the whole call).  The source's
local `frameLen` / `payload` constants are inlined. -/
def FrameDecoder.drainFuel (max : Nat) : Nat → List Nat → List DecodeEvent × List Nat
  | 0, buf => ([], buf)
  | fuel + 1, buf =>
    if 4 ≤ buf.length then
      if readUInt32LE buf > max then
        ([DecodeEvent.error], [])
      else if buf.length < 4 + readUInt32LE buf then
        ([], buf)
      else
        (DecodeEvent.frame ((buf.drop 4).take (readUInt32LE buf)) ::
          (FrameDecoder.drainFuel max fuel (buf.drop (4 + readUInt32LE buf))).1,
         (FrameDecoder.drainFuel max fuel (buf.drop (4 + readUInt32LE buf))).2)
    else
      ([], buf)

/-- The full drain loop of `FrameDecoder.push`. -/
def FrameDecoder.drain (max : Nat) (buf : List Nat) : List DecodeEvent × List Nat :=
  FrameDecoder.drainFuel max buf.length buf

/-- Method `FrameDecoder.push(chunk)`: append the chunk, then drain complete
frames.  Returns the events emitted during this call together with the
new decoder state. -/
def FrameDecoder.push (d : FrameDecoder) (chunk : List Nat) :
    List DecodeEvent × FrameDecoder :=
  let out := FrameDecoder.drain d.maxFrameSize (d.buffer ++ chunk)
  (out.1, { d with buffer := out.2 })

/-- Accessor `get pendingBytes()`. -/
def FrameDecoder.pendingBytes (d : FrameDecoder) : Nat :=
  d.buffer.length

/-- Method `FrameDecoder.reset()`. -/
def FrameDecoder.reset (d : FrameDecoder) : FrameDecoder :=
  { d with buffer := [] }

/-- Push a list of chunks in order, concatenating the emitted events. -/
def FrameDecoder.pushAll : FrameDecoder → List (List Nat) → List DecodeEvent × FrameDecoder
  | d, [] => ([], d)
  | d, c :: cs =>
    ((d.push c).1 ++ (FrameDecoder.pushAll (d.push c).2 cs).1,
     (FrameDecoder.pushAll (d.push c).2 cs).2)

/-- Little-endian u32 encoding (the wire layout of the length header). -/
def u32LE (n : Nat) : List Nat :=
  [n % 256, n / 256 % 256, n / 65536 % 256, n / 16777216 % 256]

/-- Wire encoding of one frame: 4-byte little-endian length header
followed by exactly that many payload bytes (the layout parsed by
`FrameDecoder`). -/
def wireFrame (payload : List Nat) : List Nat :=
  u32LE payload.length ++ payload

/-! ## Protocol constants (`packages/protocol/src/opcodes.ts`) -/

/-- Constant `OpCode.RESPONSE_ERROR`. -/
def RESPONSE_ERROR : Nat := 0xf1

/-! ## JavaScript 32-bit integer conversions (ECMAScript) -/

/-- ECMAScript `ToInt32`: reduce modulo `2^32` into `[-2^31, 2^31)`. -/
def toInt32 (x : Int) : Int :=
  if x % (2 ^ 32) < 2 ^ 31 then x % (2 ^ 32) else x % (2 ^ 32) - 2 ^ 32

/-- ECMAScript `ToUint32`: the operand's low 32 bits as an unsigned
number. -/
def toUint32 (x : Int) : Nat := (x % (2 ^ 32)).toNat

/-- JavaScript `a & b` on numbers: both operands are converted to their
low 32 bits, the bit patterns are ANDed, and the result is read back as
a signed 32-bit integer. -/
def jsBitAnd (a b : Int) : Int :=
  if Nat.land (toUint32 a) (toUint32 b) < 2 ^ 31 then
    (Nat.land (toUint32 a) (toUint32 b) : Int)
  else
    (Nat.land (toUint32 a) (toUint32 b) : Int) - 2 ^ 32

/-! ## Request pipeline (`packages/client/src/pipeline.ts`) -/

/-- Failure values with which a pending request's promise can be
rejected (one constructor per `reject(...)` call site in
`pipeline.ts`). -/
inductive PipeError where
  | backpressure (pendingSize : Nat)
  | writeError
  | mindFry (code : Nat) (message : List Nat)
  | timeoutError (timeoutMs : Nat)
  | decodeError
  | socketError
  | connectionClosed
  | destroyed
  deriving DecidableEq, Repr

/-- Terminal state of one `send` call's promise. -/
inductive Outcome where
  | resolved (payload : List Nat)
  | rejected (e : PipeError)
  deriving DecidableEq, Repr

/-- One entry of the `pending` map: the map key (`seqId`) plus the
`PendingRequest` fields.  The `resolve`/`reject` continuations are
represented by the outcome slot at index `uid`, the creation index of
the `send` call (strings modelled as UTF-8 byte lists). -/
structure PendingEntry where
  id : Int
  uid : Nat
  opcode : Nat
  timestamp : Int
  deriving DecidableEq, Repr

/-- Configuration record `PipelineConfig`. -/
structure PipelineConfig where
  timeout : Nat
  maxPending : Nat
  maxFrameSize : Nat
  deriving DecidableEq, Repr

/-- Constant `DEFAULT_CONFIG`. -/
def DEFAULT_CONFIG : PipelineConfig :=
  { timeout := 30000, maxPending := 1000, maxFrameSize := 16 * 1024 * 1024 }

/-- State of a `RequestPipeline` together with the observables the
claims are about: the outcome slot of every `send` call so far
(`outcomes`, indexed by creation order; `none` = promise still
pending), the frames written to the socket (`writeLog`), whether the
timeout interval and the decoder listeners are installed, and whether
an exception escaped a socket data handler (`crashed`: the process
dies, no further events are handled).  `warnCount` counts
`console.warn` calls. -/
structure RequestPipeline where
  sequenceId : Int
  pending : List PendingEntry
  outcomes : List (Option Outcome)
  writeLog : List (List Nat)
  timerOn : Bool
  listenersOn : Bool
  decoder : FrameDecoder
  config : PipelineConfig
  crashed : Bool
  warnCount : Nat
  deriving DecidableEq, Repr

/-- Constructor `new RequestPipeline(socket, config)`: constructor state after
`setupSocketHandlers` and `startTimeoutChecker`. -/
def RequestPipeline.new (config : PipelineConfig) : RequestPipeline :=
  { sequenceId := 0, pending := [], outcomes := [], writeLog := [],
    timerOn := true, listenersOn := true,
    decoder := FrameDecoder.new config.maxFrameSize,
    config := config, crashed := false, warnCount := 0 }

/-- Method `RequestPipeline.nextSequenceId`:
`this.sequenceId = (this.sequenceId + 1) & 0xffffffff`. -/
def nextSequenceId (sequenceId : Int) : Int :=
  jsBitAnd (sequenceId + 1) 0xffffffff

/-- JS promise semantics: `resolve`/`reject` settle a promise only if
it is still pending; later invocations are ignored. -/
def settleOnce (outcomes : List (Option Outcome)) (uid : Nat) (o : Outcome) :
    List (Option Outcome) :=
  match outcomes[uid]? with
  | some none => outcomes.set uid (some o)
  | _ => outcomes

/-- JS `Map.prototype.set`: if the key is present, the value is
replaced in place (insertion position kept); otherwise the pair is
appended. -/
def mapSet : List PendingEntry → PendingEntry → List PendingEntry
  | [], e => [e]
  | x :: xs, e => if x.id = e.id then e :: xs else x :: mapSet xs e

/-- JS `Map.prototype.delete`: remove the entry with the given key, if
present. -/
def mapDelete : List PendingEntry → Int → List PendingEntry
  | [], _ => []
  | x :: xs, i => if x.id = i then xs else x :: mapDelete xs i

/-- Method `RequestPipeline.send(frame, opcode)` — the synchronous body of the
promise executor: backpressure check, sequence-id allocation, pending
insertion, socket write.  The socket write callback is a separate later
event (`Event.writeResult`); `Date.now()` is the `now` parameter. -/
def RequestPipeline.send (s : RequestPipeline) (frame : List Nat) (opcode : Nat)
    (now : Int) : RequestPipeline :=
  if s.config.maxPending ≤ s.pending.length then
    { s with outcomes := s.outcomes ++
        [some (Outcome.rejected (PipeError.backpressure s.pending.length))] }
  else
    { s with
      sequenceId := nextSequenceId s.sequenceId,
      pending := mapSet s.pending
        { id := nextSequenceId s.sequenceId, uid := s.outcomes.length,
          opcode := opcode, timestamp := now },
      outcomes := s.outcomes ++ [none],
      writeLog := s.writeLog ++ [frame] }

/-- The error-response body decode in `handleFrame`: `readU8` (the
error code) then `readString` (u16 little-endian length prefix, then
that many bytes, clamped to the bytes available, like `slice`).
`none` models the `RangeError` thrown by the `DataView` reads when
fewer than three bytes are available. -/
def parseErrorBody : List Nat → Option (Nat × List Nat)
  | code :: lo :: hi :: rest => some (code, rest.take (lo + 256 * hi))
  | _ => none

/-- Method `RequestPipeline.handleFrame(payload)`.  An empty payload, or an
empty pending map, only logs a warning.  Otherwise the oldest pending
entry is deleted and settled: rejected with `MindFryError(code,
message)` for a `RESPONSE_ERROR` tag, resolved with the payload after
the tag byte otherwise.  A `RESPONSE_ERROR` frame whose body is too
short for the reads makes the handler throw after the entry was already
deleted — modelled by `crashed` (the entry is removed but never
settled). -/
def RequestPipeline.handleFrame (s : RequestPipeline) (payload : List Nat) :
    RequestPipeline :=
  match payload with
  | [] => { s with warnCount := s.warnCount + 1 }
  | opcode :: data =>
    match s.pending with
    | [] => { s with warnCount := s.warnCount + 1 }
    | e :: rest =>
      if opcode = RESPONSE_ERROR then
        match parseErrorBody data with
        | some (code, message) =>
          { s with pending := rest,
                   outcomes := settleOnce s.outcomes e.uid
                     (Outcome.rejected (PipeError.mindFry code message)) }
        | none => { s with pending := rest, crashed := true }
      else
        { s with pending := rest,
                 outcomes := settleOnce s.outcomes e.uid (Outcome.resolved data) }

/-- Method `RequestPipeline.rejectAllPending(error)`: reject and remove every
pending entry, in insertion order. -/
def rejectAllPending (s : RequestPipeline) (err : PipeError) : RequestPipeline :=
  { s with pending := [],
           outcomes := s.pending.foldl
             (fun os e => settleOnce os e.uid (Outcome.rejected err)) s.outcomes }

/-- The body of the `setInterval` callback installed by
`startTimeoutChecker`: reject and remove every pending entry strictly
older than the configured timeout. -/
def RequestPipeline.checkTimeouts (s : RequestPipeline) (now : Int) : RequestPipeline :=
  { s with
    pending := s.pending.filter
      (fun e => !decide ((s.config.timeout : Int) < now - e.timestamp)),
    outcomes := (s.pending.filter
        (fun e => decide ((s.config.timeout : Int) < now - e.timestamp))).foldl
      (fun os e => settleOnce os e.uid
        (Outcome.rejected (PipeError.timeoutError s.config.timeout))) s.outcomes }

/-- Method `RequestPipeline.destroy()`: stop the timeout checker, detach the
decoder listeners, reset the decoder, then reject and clear all pending
entries. -/
def RequestPipeline.destroy (s : RequestPipeline) : RequestPipeline :=
  rejectAllPending
    { s with timerOn := false, listenersOn := false, decoder := s.decoder.reset }
    PipeError.destroyed

/-- The external events that drive the pipeline, serialized by the
single-threaded runtime. -/
inductive Event where
  | send (frame : List Nat) (opcode : Nat) (now : Int)
  | writeResult (uid : Nat) (id : Int) (err : Bool)
  | data (chunk : List Nat)
  | timeoutTick (now : Int)
  | socketError
  | socketClose
  | destroy

/-- Handle the events emitted (synchronously) by one `decoder.push`
call, in emission order: `frame` events go to `handleFrame`, the
`error` event to `rejectAllPending`.  An exception escaping
`handleFrame` (`crashed`) aborts the remaining handlers. -/
def processDecodeEvents (s : RequestPipeline) : List DecodeEvent → RequestPipeline
  | [] => s
  | ev :: evs =>
    if s.crashed then s
    else
      match ev with
      | DecodeEvent.frame p => processDecodeEvents (s.handleFrame p) evs
      | DecodeEvent.error =>
        processDecodeEvents (rejectAllPending s PipeError.decodeError) evs

/-- One-step transition of the pipeline on an external event.  After a
crash (uncaught exception) the process is dead and no event is
handled.  A socket `data` chunk is pushed into the decoder; the decode
events reach the pipeline only while its listeners are attached.  The
timeout callback only fires while the interval is installed. -/
def RequestPipeline.step (s : RequestPipeline) (ev : Event) : RequestPipeline :=
  if s.crashed then s
  else
    match ev with
    | Event.send frame opcode now => s.send frame opcode now
    | Event.writeResult uid id err =>
      if err then
        { s with pending := mapDelete s.pending id,
                 outcomes := settleOnce s.outcomes uid
                   (Outcome.rejected PipeError.writeError) }
      else s
    | Event.data chunk =>
      if s.listenersOn then
        processDecodeEvents { s with decoder := (s.decoder.push chunk).2 }
          (s.decoder.push chunk).1
      else
        { s with decoder := (s.decoder.push chunk).2 }
    | Event.timeoutTick now => if s.timerOn then s.checkTimeouts now else s
    | Event.socketError => rejectAllPending s PipeError.socketError
    | Event.socketClose => rejectAllPending s PipeError.connectionClosed
    | Event.destroy => s.destroy

/-! ### The exactly-once invariant -/

/-- A decoded frame on which `handleFrame` throws: error tag with a
body too short for the error-code / length-prefix reads. -/
def crashyFrame : List Nat → Bool
  | opcode :: data => opcode == RESPONSE_ERROR && (parseErrorBody data).isNone
  | [] => false

/-- Exactly-once bookkeeping invariant: pending entries carry pairwise
distinct creation indices, every pending entry's promise is still
unsettled, and every still-unsettled promise has an entry in the
pending map.  Together with outcome monotonicity this says each `send`
call's promise is settled at most once, its entry removed at most once,
and no promise is abandoned (removed yet never settled). -/
def WF (s : RequestPipeline) : Prop :=
  (s.pending.map PendingEntry.uid).Nodup ∧
  (∀ e ∈ s.pending, s.outcomes[e.uid]? = some none) ∧
  (∀ uid < s.outcomes.length, s.outcomes[uid]? = some none →
    ∃ e ∈ s.pending, e.uid = uid)

instance (s : RequestPipeline) : Decidable (WF s) := by
  unfold WF
  infer_instance

/-- Trace validity of an event against a state: the side conditions
under which the event can occur in an actual run.  A `send` must not
allocate a sequence id equal to a still-pending one (automatic until
the 32-bit counter wraps all the way around); a failed-write callback
carries the `(uid, seqId)` pair of the `send` call that registered it;
a data chunk must not decode to an error-tagged frame with a truncated
body (otherwise `handleFrame` throws — see the C3 counterexample). -/
def ValidEvent (s : RequestPipeline) : Event → Prop
  | Event.send _ _ _ =>
    s.config.maxPending ≤ s.pending.length ∨
      ∀ e ∈ s.pending, e.id ≠ nextSequenceId s.sequenceId
  | Event.writeResult uid id err =>
    err = true →
      uid < s.outcomes.length ∧ ∀ e ∈ s.pending, (e.id = id ↔ e.uid = uid)
  | Event.data chunk =>
    ((s.decoder.push chunk).1.all fun dev =>
      match dev with
      | DecodeEvent.frame p => !crashyFrame p
      | DecodeEvent.error => true) = true
  | _ => True

instance (s : RequestPipeline) (ev : Event) : Decidable (ValidEvent s ev) := by
  cases ev <;> (unfold ValidEvent; infer_instance)

/-- A pipeline configured with `maxPending = 2`, used by witnesses. -/
def cfgK2 : PipelineConfig :=
  { timeout := 30000, maxPending := 2, maxFrameSize := 16 * 1024 * 1024 }

/-- One accepted send on a fresh `maxPending = 2` pipeline. -/
def sendOnceState : RequestPipeline := (RequestPipeline.new cfgK2).send [9] 64 0

/-- Two accepted sends on a fresh `maxPending = 2` pipeline (capacity
reached). -/
def sendTwiceState : RequestPipeline := sendOnceState.send [9] 64 0

/-! ### C8: sequence-id allocation arithmetic -/

/-- The sequence counter after `n` allocations, starting from the
initial `sequenceId = 0`. -/
def allocSequenceIds : Nat → Int
  | 0 => 0
  | n + 1 => nextSequenceId (allocSequenceIds n)

/-! ### C1: FIFO settlement -/

instance : Inhabited PendingEntry := ⟨⟨0, 0, 0, 0⟩⟩

/-- How `handleFrame` settles the oldest pending entry for a decoded
response payload: error-tagged frames reject with the decoded
`MindFryError`, all others resolve with the payload after the tag
byte.  (The fall-through values are never reached on nonempty,
non-throwing frames.) -/
def respOutcome : List Nat → Outcome
  | opcode :: data =>
    if opcode = RESPONSE_ERROR then
      match parseErrorBody data with
      | some (code, message) => Outcome.rejected (PipeError.mindFry code message)
      | none => Outcome.resolved data
    else Outcome.resolved data
  | [] => Outcome.resolved []

/-- A sequence of `send` calls (frame, opcode, `Date.now()` value). -/
def RequestPipeline.sendAll : RequestPipeline → List (List Nat × Nat × Int) → RequestPipeline
  | s, [] => s
  | s, (frame, opcode, now) :: rs => RequestPipeline.sendAll (s.send frame opcode now) rs

/-- The state of a fresh connection after `j` accepted sends and no
other event: counter at `ToInt32 j`, `j` unsettled promises, pending
entries carrying creation indices `0..j-1` and sequence ids
`ToInt32 1 .. ToInt32 j` in order, decoder empty. -/
def FreshPipeline (cfg : PipelineConfig) (j : Nat) (s : RequestPipeline) : Prop :=
  s.config = cfg ∧
  s.crashed = false ∧
  s.listenersOn = true ∧
  s.sequenceId = toInt32 j ∧
  s.outcomes = List.replicate j none ∧
  s.pending.map PendingEntry.uid = List.range j ∧
  s.pending.map PendingEntry.id =
    (List.range' 1 j).map (fun (t : Nat) => toInt32 (t : Int)) ∧
  s.decoder = FrameDecoder.new cfg.maxFrameSize

/-- Concrete request sequence for the C1 witness. -/
def c1Reqs : List (List Nat × Nat × Int) :=
  [([1, 0, 0, 0, 64], 64, 0), ([1, 0, 0, 0, 65], 65, 0)]

/-- Concrete response payloads for the C1 witness: one success frame,
one error frame (code 9, one-byte message). -/
def c1Resps : List (List Nat) := [[240, 7], [241, 9, 1, 0, 33]]

/-! ## Theorems -/

/-- The fuel argument is irrelevant as long as it is at least the
buffer length: the loop consumes at least 4 bytes per iteration. -/
theorem drainFuel_congr (max : Nat) :
    ∀ (f₁ : Nat) (f₂ : Nat) (buf : List Nat), buf.length ≤ f₁ → buf.length ≤ f₂ →
      FrameDecoder.drainFuel max f₁ buf = FrameDecoder.drainFuel max f₂ buf := by
  intro f₁
  induction f₁ with
  | zero =>
    intro f₂ buf h₁ h₂
    have hb : buf.length = 0 := by omega
    cases f₂ with
    | zero => rfl
    | succ f₂ =>
      rw [FrameDecoder.drainFuel, FrameDecoder.drainFuel, if_neg (by omega)]
  | succ f₁ ih =>
    intro f₂ buf h₁ h₂
    cases f₂ with
    | zero =>
      have hb : buf.length = 0 := by omega
      rw [FrameDecoder.drainFuel, FrameDecoder.drainFuel, if_neg (by omega)]
    | succ f₂ =>
      rw [FrameDecoder.drainFuel, FrameDecoder.drainFuel]
      by_cases h4 : 4 ≤ buf.length
      · rw [if_pos h4, if_pos h4]
        by_cases hbig : readUInt32LE buf > max
        · rw [if_pos hbig, if_pos hbig]
        · rw [if_neg hbig, if_neg hbig]
          by_cases hinc : buf.length < 4 + readUInt32LE buf
          · rw [if_pos hinc, if_pos hinc]
          · rw [if_neg hinc, if_neg hinc]
            have hrec := ih f₂ (buf.drop (4 + readUInt32LE buf))
              (by simp only [List.length_drop]; omega)
              (by simp only [List.length_drop]; omega)
            rw [hrec]
      · rw [if_neg h4, if_neg h4]

theorem length_u32LE (n : Nat) : (u32LE n).length = 4 := rfl

theorem length_wireFrame (p : List Nat) :
    (wireFrame p).length = 4 + p.length := by
  simp [wireFrame, u32LE]
  omega

theorem drain_short (max : Nat) (buf : List Nat) (h : buf.length < 4) :
    FrameDecoder.drain max buf = ([], buf) := by
  rw [FrameDecoder.drain]
  cases hn : buf.length with
  | zero => rw [FrameDecoder.drainFuel]
  | succ n => rw [FrameDecoder.drainFuel, if_neg (by omega)]

theorem drain_oversize (max : Nat) (buf : List Nat)
    (h4 : 4 ≤ buf.length) (h : max < readUInt32LE buf) :
    FrameDecoder.drain max buf = ([DecodeEvent.error], []) := by
  rw [FrameDecoder.drain]
  obtain ⟨n, hn⟩ : ∃ n, buf.length = n + 1 := ⟨buf.length - 1, by omega⟩
  rw [hn, FrameDecoder.drainFuel, if_pos (by omega), if_pos h]

theorem drain_incomplete (max : Nat) (buf : List Nat)
    (h4 : 4 ≤ buf.length) (hle : readUInt32LE buf ≤ max)
    (hlt : buf.length < 4 + readUInt32LE buf) :
    FrameDecoder.drain max buf = ([], buf) := by
  rw [FrameDecoder.drain]
  obtain ⟨n, hn⟩ : ∃ n, buf.length = n + 1 := ⟨buf.length - 1, by omega⟩
  rw [hn, FrameDecoder.drainFuel, if_pos (by omega), if_neg (not_lt.mpr hle),
    if_pos (by omega)]

theorem drain_complete (max : Nat) (buf : List Nat)
    (h4 : 4 ≤ buf.length) (hle : readUInt32LE buf ≤ max)
    (hfull : 4 + readUInt32LE buf ≤ buf.length) :
    FrameDecoder.drain max buf =
      (DecodeEvent.frame ((buf.drop 4).take (readUInt32LE buf)) ::
        (FrameDecoder.drain max (buf.drop (4 + readUInt32LE buf))).1,
       (FrameDecoder.drain max (buf.drop (4 + readUInt32LE buf))).2) := by
  rw [FrameDecoder.drain]
  obtain ⟨n, hn⟩ : ∃ n, buf.length = n + 1 := ⟨buf.length - 1, by omega⟩
  rw [hn, FrameDecoder.drainFuel, if_pos (by omega), if_neg (not_lt.mpr hle),
    if_neg (by omega)]
  have hrec : FrameDecoder.drainFuel max n (buf.drop (4 + readUInt32LE buf)) =
      FrameDecoder.drain max (buf.drop (4 + readUInt32LE buf)) := by
    rw [FrameDecoder.drain]
    exact drainFuel_congr max n _ _
      (by simp only [List.length_drop]; omega)
      (by simp only [List.length_drop]; omega)
  rw [hrec]

theorem readUInt32LE_u32LE_append (n : Nat) (s : List Nat) (h : n < 2 ^ 32) :
    readUInt32LE (u32LE n ++ s) = n := by
  simp only [u32LE, List.cons_append, List.nil_append, readUInt32LE]
  omega

/-- Draining a buffer that starts with one complete in-bounds frame
emits that frame first and continues on the remainder. -/
theorem drain_wireFrame_append (max : Nat) (p s : List Nat)
    (hmax : p.length ≤ max) (h32 : p.length < 2 ^ 32) :
    FrameDecoder.drain max (wireFrame p ++ s) =
      (DecodeEvent.frame p :: (FrameDecoder.drain max s).1,
       (FrameDecoder.drain max s).2) := by
  have hlen : (wireFrame p ++ s).length = 4 + p.length + s.length := by
    simp [length_wireFrame]
  have hread : readUInt32LE (wireFrame p ++ s) = p.length := by
    rw [wireFrame, List.append_assoc]
    exact readUInt32LE_u32LE_append _ _ h32
  have hdrop4 : (wireFrame p ++ s).drop 4 = p ++ s := by
    rw [wireFrame, List.append_assoc, List.drop_left' (by simp [u32LE])]
  have hdrop : (wireFrame p ++ s).drop (4 + p.length) = s := by
    rw [List.drop_left' (length_wireFrame p)]
  rw [drain_complete max _ (by omega) (by omega) (by omega)]
  rw [hread, hdrop4, hdrop, List.take_append_of_le_length le_rfl, List.take_length]

theorem drain_nil (max : Nat) : FrameDecoder.drain max [] = ([], []) :=
  drain_short max [] (by simp)

/-- A proper prefix of a well-formed in-bounds frame drains to nothing:
the decoder waits for more input. -/
theorem drain_take_wireFrame (max : Nat) (p : List Nat) (k : Nat)
    (hk : k < (wireFrame p).length)
    (hmax : p.length ≤ max) (h32 : p.length < 2 ^ 32) :
    FrameDecoder.drain max ((wireFrame p).take k) =
      ([], (wireFrame p).take k) := by
  rw [length_wireFrame] at hk
  have hklen : ((wireFrame p).take k).length = k := by
    rw [List.length_take, length_wireFrame]
    omega
  by_cases h4 : 4 ≤ k
  · have htk : (wireFrame p).take k = u32LE p.length ++ p.take (k - 4) := by
      rw [wireFrame, List.take_append_eq_append_take,
        List.take_of_length_le (by simp [u32LE]; omega)]
      simp [u32LE]
    have hread : readUInt32LE ((wireFrame p).take k) = p.length := by
      rw [htk]
      exact readUInt32LE_u32LE_append _ _ h32
    exact drain_incomplete max _ (by omega) (by omega) (by omega)
  · exact drain_short max _ (by omega)

theorem push_nil_of_empty (max : Nat) :
    (FrameDecoder.new max).push [] = ([], FrameDecoder.new max) := by
  simp [FrameDecoder.push, FrameDecoder.new, FrameDecoder.drain, FrameDecoder.drainFuel]

/-- Pushing only empty chunks into a drained decoder emits nothing. -/
theorem pushAll_nil_chunks (max : Nat) (chunks : List (List Nat))
    (h : ∀ c ∈ chunks, c = []) :
    (FrameDecoder.new max).pushAll chunks = ([], FrameDecoder.new max) := by
  induction chunks with
  | nil => rfl
  | cons c cs ih =>
    have hc : c = [] := h c (by simp)
    subst hc
    rw [FrameDecoder.pushAll, push_nil_of_empty]
    simp only [List.nil_append]
    exact ih fun x hx => h x (by simp [hx])

/-- Pushing, chunk by chunk, the remainder of one well-formed in-bounds
frame into a decoder whose buffer holds a proper prefix of that frame
emits exactly the one frame event and drains the buffer. -/
theorem pushAll_take_wireFrame (max : Nat) (p : List Nat)
    (hmax : p.length ≤ max) (h32 : p.length < 2 ^ 32) :
    ∀ (chunks : List (List Nat)) (k : Nat), k < (wireFrame p).length →
      chunks.flatten = (wireFrame p).drop k →
      FrameDecoder.pushAll ⟨(wireFrame p).take k, max⟩ chunks =
        ([DecodeEvent.frame p], FrameDecoder.new max) := by
  intro chunks
  induction chunks with
  | nil =>
    intro k hk hflat
    exfalso
    have := congrArg List.length hflat
    simp only [List.flatten_nil, List.length_nil, List.length_drop] at this
    omega
  | cons c cs ih =>
    intro k hk hflat
    simp only [List.flatten_cons] at hflat
    have hc : c = ((wireFrame p).drop k).take c.length := by
      rw [← hflat, List.take_left]
    have hcslen : cs.flatten = ((wireFrame p).drop k).drop c.length := by
      rw [← hflat, List.drop_left]
    have hlenle : c.length ≤ (wireFrame p).length - k := by
      have h1 := congrArg List.length hflat
      simp only [List.length_append, List.length_drop] at h1
      omega
    have hbuf : (wireFrame p).take k ++ c = (wireFrame p).take (k + c.length) := by
      rw [List.take_add, ← hc]
    have hflat' : cs.flatten = (wireFrame p).drop (k + c.length) := by
      rw [hcslen, List.drop_drop, Nat.add_comm]
    rw [FrameDecoder.pushAll]
    by_cases hend : k + c.length < (wireFrame p).length
    · have hpush : (⟨(wireFrame p).take k, max⟩ : FrameDecoder).push c =
          ([], ⟨(wireFrame p).take (k + c.length), max⟩) := by
        simp only [FrameDecoder.push, hbuf]
        rw [drain_take_wireFrame max p (k + c.length) hend hmax h32]
      rw [hpush]
      simp only [List.nil_append]
      exact ih (k + c.length) hend hflat'
    · have heq : k + c.length = (wireFrame p).length := by omega
      have hbuf' : (wireFrame p).take k ++ c = wireFrame p := by
        rw [hbuf, heq, List.take_length]
      have hdrained : FrameDecoder.drain max (wireFrame p) =
          ([DecodeEvent.frame p], []) := by
        have h1 := drain_wireFrame_append max p [] hmax h32
        rw [List.append_nil, drain_nil] at h1
        exact h1
      have hpush : (⟨(wireFrame p).take k, max⟩ : FrameDecoder).push c =
          ([DecodeEvent.frame p], FrameDecoder.new max) := by
        simp only [FrameDecoder.push, hbuf', hdrained]
        rfl
      rw [hpush]
      have hcs : ∀ x ∈ cs, x = [] := by
        rw [← List.flatten_eq_nil_iff, hflat', heq, List.drop_length]
      rw [pushAll_nil_chunks max cs hcs]
      simp

/-- C6 core: pushing any chunking of one encoded frame into a fresh
decoder yields exactly one frame event carrying the original payload,
no error event, and an empty buffer. -/
theorem pushAll_fragmentation (max : Nat) (p : List Nat) (chunks : List (List Nat))
    (hmax : p.length ≤ max) (h32 : p.length < 2 ^ 32)
    (hflat : chunks.flatten = wireFrame p) :
    (FrameDecoder.new max).pushAll chunks =
      ([DecodeEvent.frame p], FrameDecoder.new max) := by
  have h := pushAll_take_wireFrame max p hmax h32 chunks 0
    (by rw [length_wireFrame]; omega)
    (by rw [List.drop_zero]; exact hflat)
  rw [List.take_zero] at h
  exact h

/-- C7 core: draining the concatenation of `N` in-bounds encoded frames
emits exactly the `N` frames in order, leaving an empty buffer. -/
theorem drain_flatten_wireFrames (max : Nat) (ps : List (List Nat))
    (h : ∀ p ∈ ps, p.length ≤ max ∧ p.length < 2 ^ 32) :
    FrameDecoder.drain max (ps.map wireFrame).flatten =
      (ps.map DecodeEvent.frame, []) := by
  induction ps with
  | nil =>
    simp only [List.map_nil, List.flatten_nil]
    exact drain_nil max
  | cons p ps ih =>
    simp only [List.map_cons, List.flatten_cons]
    rw [drain_wireFrame_append max p _ (h p (by simp)).1 (h p (by simp)).2]
    rw [ih fun q hq => h q (by simp [hq])]

/-! ### Promise-slot lemmas -/

theorem lt_length_of_getElem? {os : List (Option Outcome)} {uid : Nat}
    {x : Option Outcome} (h : os[uid]? = some x) : uid < os.length := by
  by_contra hlt
  rw [List.getElem?_eq_none (by omega)] at h
  cases h

theorem length_settleOnce (os : List (Option Outcome)) (uid : Nat) (o : Outcome) :
    (settleOnce os uid o).length = os.length := by
  unfold settleOnce
  split
  · simp
  · rfl

theorem settleOnce_getElem?_ne (os : List (Option Outcome)) (uid v : Nat) (o : Outcome)
    (h : v ≠ uid) : (settleOnce os uid o)[v]? = os[v]? := by
  unfold settleOnce
  split
  · rw [List.getElem?_set_ne (Ne.symm h)]
  · rfl

theorem settleOnce_settled (os : List (Option Outcome)) (uid : Nat) (o o' : Outcome)
    (h : os[uid]? = some (some o')) : settleOnce os uid o = os := by
  unfold settleOnce
  rw [h]

theorem settleOnce_pending (os : List (Option Outcome)) (uid : Nat) (o : Outcome)
    (h : os[uid]? = some none) : (settleOnce os uid o)[uid]? = some (some o) := by
  have hlt : uid < os.length := lt_length_of_getElem? h
  unfold settleOnce
  rw [h]
  simp [List.getElem?_set_self, hlt]

theorem settleOnce_mono (os : List (Option Outcome)) (uid v : Nat) (o o' : Outcome)
    (h : os[v]? = some (some o')) : (settleOnce os uid o)[v]? = some (some o') := by
  by_cases hv : v = uid
  · subst hv
    rw [settleOnce_settled os v o o' h]
    exact h
  · rw [settleOnce_getElem?_ne os uid v o hv]
    exact h

theorem settleOnce_pending_rev (os : List (Option Outcome)) (uid v : Nat) (o : Outcome)
    (h : (settleOnce os uid o)[v]? = some none) : os[v]? = some none := by
  cases hc : os[v]? with
  | none =>
    exfalso
    by_cases hv : v = uid
    · subst hv
      unfold settleOnce at h
      rw [hc] at h
      rw [hc] at h
      cases h
    · rw [settleOnce_getElem?_ne os uid v o hv, hc] at h
      cases h
  | some x =>
    cases x with
    | none => rfl
    | some y =>
      exfalso
      by_cases hv : v = uid
      · subst hv
        rw [settleOnce_settled os v o y hc, hc] at h
        cases h
      · rw [settleOnce_getElem?_ne os uid v o hv, hc] at h
        cases h

/-! ### Lemmas about the settle-and-clear folds -/

theorem foldlSettle_length (out : Outcome) :
    ∀ (es : List PendingEntry) (os : List (Option Outcome)),
      (es.foldl (fun os e => settleOnce os e.uid out) os).length = os.length := by
  intro es
  induction es with
  | nil => intro os; rfl
  | cons x xs ih =>
    intro os
    rw [List.foldl_cons, ih, length_settleOnce]

theorem foldlSettle_untouched (out : Outcome) :
    ∀ (es : List PendingEntry) (os : List (Option Outcome)) (v : Nat),
      (∀ e ∈ es, e.uid ≠ v) →
      (es.foldl (fun os e => settleOnce os e.uid out) os)[v]? = os[v]? := by
  intro es
  induction es with
  | nil => intro os v _; rfl
  | cons x xs ih =>
    intro os v h
    rw [List.foldl_cons, ih _ v fun e he => h e (by simp [he]),
      settleOnce_getElem?_ne _ _ _ _ (Ne.symm (h x (by simp)))]

theorem foldlSettle_mono (out : Outcome) :
    ∀ (es : List PendingEntry) (os : List (Option Outcome)) (v : Nat) (o : Outcome),
      os[v]? = some (some o) →
      (es.foldl (fun os e => settleOnce os e.uid out) os)[v]? = some (some o) := by
  intro es
  induction es with
  | nil => intro os v o h; exact h
  | cons x xs ih =>
    intro os v o h
    rw [List.foldl_cons]
    exact ih _ v o (settleOnce_mono os x.uid v out o h)

theorem foldlSettle_pending_rev (out : Outcome) :
    ∀ (es : List PendingEntry) (os : List (Option Outcome)) (v : Nat),
      (es.foldl (fun os e => settleOnce os e.uid out) os)[v]? = some none →
      os[v]? = some none := by
  intro es
  induction es with
  | nil => intro os v h; exact h
  | cons x xs ih =>
    intro os v h
    rw [List.foldl_cons] at h
    exact settleOnce_pending_rev os x.uid v out (ih _ v h)

theorem foldlSettle_settles (out : Outcome) :
    ∀ (es : List PendingEntry) (os : List (Option Outcome)) (e : PendingEntry),
      e ∈ es → os[e.uid]? = some none →
      (es.foldl (fun os e => settleOnce os e.uid out) os)[e.uid]? = some (some out) := by
  intro es
  induction es with
  | nil => intro os e he; cases he
  | cons x xs ih =>
    intro os e he hpend
    rw [List.foldl_cons]
    rcases List.mem_cons.mp he with rfl | hxs
    · exact foldlSettle_mono out xs _ e.uid out (settleOnce_pending os e.uid out hpend)
    · by_cases hx : x.uid = e.uid
      · rw [← hx] at hpend ⊢
        exact foldlSettle_mono out xs _ x.uid out (settleOnce_pending os x.uid out hpend)
      · exact ih _ e hxs (by rw [settleOnce_getElem?_ne os x.uid e.uid out (Ne.symm hx)]; exact hpend)

/-! ### Lemmas about the JS `Map` model -/

theorem mapSet_eq_append (es : List PendingEntry) (y : PendingEntry)
    (h : ∀ e ∈ es, e.id ≠ y.id) : mapSet es y = es ++ [y] := by
  induction es with
  | nil => rfl
  | cons x xs ih =>
    rw [mapSet, if_neg (h x (by simp)), ih fun e he => h e (by simp [he])]
    rfl

theorem mapDelete_sublist : ∀ (es : List PendingEntry) (i : Int),
    List.Sublist (mapDelete es i) es := by
  intro es i
  induction es with
  | nil => exact List.Sublist.refl []
  | cons x xs ih =>
    rw [mapDelete]
    by_cases hx : x.id = i
    · rw [if_pos hx]
      exact List.sublist_cons_self x xs
    · rw [if_neg hx]
      exact List.Sublist.cons₂ x ih

theorem mem_of_mem_mapDelete {es : List PendingEntry} {i : Int} {e : PendingEntry}
    (h : e ∈ mapDelete es i) : e ∈ es :=
  (mapDelete_sublist es i).subset h

theorem mapDelete_of_no_match (es : List PendingEntry) (i : Int)
    (h : ∀ e ∈ es, e.id ≠ i) : mapDelete es i = es := by
  induction es with
  | nil => rfl
  | cons x xs ih =>
    rw [mapDelete, if_neg (h x (by simp)), ih fun e he => h e (by simp [he])]

theorem mem_mapDelete_of_id_ne {es : List PendingEntry} {i : Int} {e : PendingEntry}
    (he : e ∈ es) (hne : e.id ≠ i) : e ∈ mapDelete es i := by
  induction es with
  | nil => cases he
  | cons x xs ih =>
    rw [mapDelete]
    rcases List.mem_cons.mp he with rfl | hxs
    · rw [if_neg hne]
      simp
    · by_cases hx : x.id = i
      · rw [if_pos hx]
        exact hxs
      · rw [if_neg hx]
        exact List.mem_cons.mpr (Or.inr (ih hxs))

theorem mapDelete_no_uid (es : List PendingEntry) (i : Int) (u : Nat)
    (hnd : (es.map PendingEntry.uid).Nodup)
    (hpair : ∀ e ∈ es, e.id = i ↔ e.uid = u) :
    ∀ e ∈ mapDelete es i, e.uid ≠ u := by
  induction es with
  | nil => intro e he; cases he
  | cons x xs ih =>
    rw [mapDelete]
    by_cases hx : x.id = i
    · rw [if_pos hx]
      intro e he heu
      have hxu : x.uid = u := (hpair x (by simp)).mp hx
      rw [List.map_cons, List.nodup_cons] at hnd
      exact hnd.1 (by rw [hxu, ← heu]; exact List.mem_map_of_mem PendingEntry.uid he)
    · rw [if_neg hx]
      intro e he
      rcases List.mem_cons.mp he with rfl | hxs
      · intro heu
        exact hx ((hpair e (by simp)).mpr heu)
      · rw [List.map_cons, List.nodup_cons] at hnd
        exact ih hnd.2 (fun e he => hpair e (by simp [he])) e hxs

theorem handleFrame_nil (s : RequestPipeline) :
    s.handleFrame [] = { s with warnCount := s.warnCount + 1 } := rfl

theorem handleFrame_noPending (s : RequestPipeline) (opcode : Nat) (data : List Nat)
    (h : s.pending = []) :
    s.handleFrame (opcode :: data) = { s with warnCount := s.warnCount + 1 } := by
  unfold RequestPipeline.handleFrame
  rw [h]

theorem handleFrame_errFrame (s : RequestPipeline) (data : List Nat)
    (e : PendingEntry) (rest : List PendingEntry) (code : Nat) (message : List Nat)
    (h : s.pending = e :: rest) (hparse : parseErrorBody data = some (code, message)) :
    s.handleFrame (RESPONSE_ERROR :: data) =
      { s with pending := rest,
               outcomes := settleOnce s.outcomes e.uid
                 (Outcome.rejected (PipeError.mindFry code message)) } := by
  unfold RequestPipeline.handleFrame
  rw [h]
  simp [hparse]

theorem handleFrame_errCrash (s : RequestPipeline) (data : List Nat)
    (e : PendingEntry) (rest : List PendingEntry)
    (h : s.pending = e :: rest) (hparse : parseErrorBody data = none) :
    s.handleFrame (RESPONSE_ERROR :: data) =
      { s with pending := rest, crashed := true } := by
  unfold RequestPipeline.handleFrame
  rw [h]
  simp [hparse]

theorem handleFrame_success (s : RequestPipeline) (opcode : Nat) (data : List Nat)
    (e : PendingEntry) (rest : List PendingEntry)
    (h : s.pending = e :: rest) (hop : opcode ≠ RESPONSE_ERROR) :
    s.handleFrame (opcode :: data) =
      { s with pending := rest,
               outcomes := settleOnce s.outcomes e.uid (Outcome.resolved data) } := by
  unfold RequestPipeline.handleFrame
  rw [h]
  simp [hop]

/-- Preservation: `handleFrame` preserves the exactly-once invariant on frames that do
not make the handler throw, and never un-settles a settled promise. -/
theorem handleFrame_wf (s : RequestPipeline) (p : List Nat)
    (hwf : WF s) (hcr : crashyFrame p = false) :
    WF (s.handleFrame p) ∧
      ∀ (uid : Nat) (o : Outcome), s.outcomes[uid]? = some (some o) →
        (s.handleFrame p).outcomes[uid]? = some (some o) := by
  obtain ⟨hnd, hpend, hrev⟩ := hwf
  cases p with
  | nil =>
    rw [handleFrame_nil]
    exact ⟨⟨hnd, hpend, hrev⟩, fun uid o h => h⟩
  | cons opcode data =>
    cases hp : s.pending with
    | nil =>
      rw [handleFrame_noPending s opcode data hp]
      exact ⟨⟨hnd, hpend, hrev⟩, fun uid o h => h⟩
    | cons e rest =>
      have hnd' : ((e :: rest).map PendingEntry.uid).Nodup := hp ▸ hnd
      have main : ∀ out : Outcome,
          WF { s with pending := rest,
                      outcomes := settleOnce s.outcomes e.uid out } ∧
          ∀ (uid : Nat) (o : Outcome), s.outcomes[uid]? = some (some o) →
            (settleOnce s.outcomes e.uid out)[uid]? = some (some o) := by
        intro out
        refine ⟨⟨?_, ?_, ?_⟩, ?_⟩
        · have h1 := hnd'
          rw [List.map_cons, List.nodup_cons] at h1
          exact h1.2
        · intro e' he'
          have hne : e'.uid ≠ e.uid := by
            intro hEq
            rw [List.map_cons, List.nodup_cons] at hnd'
            exact hnd'.1 (hEq ▸ List.mem_map_of_mem PendingEntry.uid he')
          rw [settleOnce_getElem?_ne _ _ _ _ hne]
          exact hpend e' (hp ▸ List.mem_cons_of_mem e he')
        · intro uid hlt hsome
          have hlt' : uid < s.outcomes.length := by
            rwa [length_settleOnce] at hlt
          have h0 : s.outcomes[uid]? = some none :=
            settleOnce_pending_rev _ _ _ _ hsome
          obtain ⟨e', he', rfl⟩ := hrev uid hlt' h0
          rw [hp] at he'
          rcases List.mem_cons.mp he' with rfl | hr
          · exfalso
            rw [settleOnce_pending s.outcomes e'.uid out h0] at hsome
            cases hsome
          · exact ⟨e', hr, rfl⟩
        · intro uid o h
          exact settleOnce_mono _ _ _ _ _ h
      by_cases hop : opcode = RESPONSE_ERROR
      · subst hop
        cases hparse : parseErrorBody data with
        | some pr =>
          obtain ⟨code, message⟩ := pr
          rw [handleFrame_errFrame s data e rest code message hp hparse]
          exact main _
        | none =>
          exfalso
          simp [crashyFrame, hparse] at hcr
      · rw [handleFrame_success s opcode data e rest hp hop]
        exact main _

/-- Preservation: `rejectAllPending` preserves the exactly-once invariant: every
pending promise is settled (with the broad error) and removed, settled
promises are untouched. -/
theorem rejectAllPending_wf (s : RequestPipeline) (err : PipeError) (hwf : WF s) :
    WF (rejectAllPending s err) ∧
      ∀ (uid : Nat) (o : Outcome), s.outcomes[uid]? = some (some o) →
        (rejectAllPending s err).outcomes[uid]? = some (some o) := by
  obtain ⟨hnd, hpend, hrev⟩ := hwf
  unfold rejectAllPending
  refine ⟨⟨by simp, by simp, ?_⟩, ?_⟩
  · intro uid hlt hsome
    exfalso
    have h0 : s.outcomes[uid]? = some none :=
      foldlSettle_pending_rev _ _ _ _ hsome
    have hlt' : uid < s.outcomes.length := by
      rw [foldlSettle_length] at hlt
      exact hlt
    obtain ⟨e, he, rfl⟩ := hrev uid hlt' h0
    have hset := foldlSettle_settles (Outcome.rejected err) s.pending s.outcomes e he h0
    rw [hset] at hsome
    cases hsome
  · intro uid o h
    exact foldlSettle_mono _ _ _ _ _ h

/-- Preservation: `send` preserves the exactly-once invariant: a backpressure
rejection settles the fresh promise immediately and touches nothing
else; an accepted send appends an unsettled promise and its pending
entry (the allocated sequence id being fresh). -/
theorem send_wf (s : RequestPipeline) (frame : List Nat) (opcode : Nat) (now : Int)
    (hwf : WF s)
    (hfresh : s.config.maxPending ≤ s.pending.length ∨
      ∀ e ∈ s.pending, e.id ≠ nextSequenceId s.sequenceId) :
    WF (s.send frame opcode now) ∧
      ∀ (uid : Nat) (o : Outcome), s.outcomes[uid]? = some (some o) →
        (s.send frame opcode now).outcomes[uid]? = some (some o) := by
  obtain ⟨hnd, hpend, hrev⟩ := hwf
  unfold RequestPipeline.send
  by_cases hbp : s.config.maxPending ≤ s.pending.length
  · rw [if_pos hbp]
    refine ⟨⟨hnd, ?_, ?_⟩, ?_⟩
    · intro e he
      have h0 := hpend e he
      rw [List.getElem?_append_left (lt_length_of_getElem? h0)]
      exact h0
    · intro uid hlt hsome
      simp only [List.length_append, List.length_cons, List.length_nil] at hlt
      by_cases hu : uid < s.outcomes.length
      · rw [List.getElem?_append_left hu] at hsome
        exact hrev uid hu hsome
      · exfalso
        have huid : uid = s.outcomes.length := by omega
        subst huid
        rw [List.getElem?_concat_length] at hsome
        cases hsome
    · intro uid o h
      rw [List.getElem?_append_left (lt_length_of_getElem? h)]
      exact h
  · rw [if_neg hbp]
    have hfresh' : ∀ e ∈ s.pending, e.id ≠ nextSequenceId s.sequenceId := by
      rcases hfresh with h | h
      · exact absurd h hbp
      · exact h
    rw [mapSet_eq_append s.pending _ (fun e he => hfresh' e he)]
    refine ⟨⟨?_, ?_, ?_⟩, ?_⟩
    · rw [List.map_append, List.nodup_append]
      refine ⟨hnd, List.nodup_singleton _, ?_⟩
      intro a ha
      simp only [List.map_cons, List.map_nil, List.mem_singleton]
      obtain ⟨e, he, rfl⟩ := List.mem_map.mp ha
      have := lt_length_of_getElem? (hpend e he)
      intro hEq
      rw [hEq] at this
      omega
    · intro e' he'
      rcases List.mem_append.mp he' with hl | hr
      · have h0 := hpend e' hl
        rw [List.getElem?_append_left (lt_length_of_getElem? h0)]
        exact h0
      · rw [List.mem_singleton] at hr
        subst hr
        rw [List.getElem?_concat_length]
    · intro uid hlt hsome
      simp only [List.length_append, List.length_cons, List.length_nil] at hlt
      by_cases hu : uid < s.outcomes.length
      · rw [List.getElem?_append_left hu] at hsome
        obtain ⟨e, he, rfl⟩ := hrev uid hu hsome
        exact ⟨e, List.mem_append.mpr (Or.inl he), rfl⟩
      · have huid : uid = s.outcomes.length := by omega
        subst huid
        exact ⟨_, List.mem_append.mpr (Or.inr (List.mem_singleton.mpr rfl)), rfl⟩
    · intro uid o h
      rw [List.getElem?_append_left (lt_length_of_getElem? h)]
      exact h

/-- A failed socket-write callback preserves the exactly-once
invariant: if its request is still pending, the callback deletes
exactly that entry and rejects exactly that promise; if a frame settled
the request first, both the delete and the reject are no-ops. -/
theorem writeResult_wf (s : RequestPipeline) (uid : Nat) (id : Int) (hwf : WF s)
    (hu : uid < s.outcomes.length)
    (hpair : ∀ e ∈ s.pending, (e.id = id ↔ e.uid = uid)) :
    WF { s with pending := mapDelete s.pending id,
                outcomes := settleOnce s.outcomes uid
                  (Outcome.rejected PipeError.writeError) } ∧
      ∀ (v : Nat) (o : Outcome), s.outcomes[v]? = some (some o) →
        (settleOnce s.outcomes uid (Outcome.rejected PipeError.writeError))[v]? =
          some (some o) := by
  obtain ⟨hnd, hpend, hrev⟩ := hwf
  have hmono : ∀ (v : Nat) (o : Outcome), s.outcomes[v]? = some (some o) →
      (settleOnce s.outcomes uid (Outcome.rejected PipeError.writeError))[v]? =
        some (some o) := fun v o h => settleOnce_mono _ _ _ _ _ h
  cases hx : s.outcomes[uid]? with
  | none =>
    exfalso
    rw [List.getElem?_eq_getElem hu] at hx
    cases hx
  | some x =>
    cases x with
    | some o =>
      have hnomatch : ∀ e ∈ s.pending, e.id ≠ id := by
        intro e he hEq
        have h1 := (hpair e he).mp hEq
        have h2 := hpend e he
        rw [h1] at h2
        rw [h2] at hx
        cases hx
      rw [mapDelete_of_no_match s.pending id hnomatch,
        settleOnce_settled s.outcomes uid _ o hx]
      exact ⟨⟨hnd, hpend, hrev⟩, fun v o h => h⟩
    | none =>
      refine ⟨⟨?_, ?_, ?_⟩, hmono⟩
      · exact hnd.sublist ((mapDelete_sublist s.pending id).map _)
      · intro e he
        have hne : e.uid ≠ uid := mapDelete_no_uid s.pending id uid hnd hpair e he
        rw [settleOnce_getElem?_ne _ _ _ _ hne]
        exact hpend e (mem_of_mem_mapDelete he)
      · intro v hlt hsome
        have h0 : s.outcomes[v]? = some none :=
          settleOnce_pending_rev _ _ _ _ hsome
        have hvne : v ≠ uid := by
          intro hEq
          subst hEq
          rw [settleOnce_pending s.outcomes v _ hx] at hsome
          cases hsome
        have hlt' : v < s.outcomes.length := by
          rwa [length_settleOnce] at hlt
        obtain ⟨e, he, rfl⟩ := hrev v hlt' h0
        refine ⟨e, ?_, rfl⟩
        have hidne : e.id ≠ id := by
          intro hEq
          exact hvne ((hpair e he).mp hEq)
        exact mem_mapDelete_of_id_ne he hidne

/-- The timeout sweep preserves the exactly-once invariant: every
expired entry is rejected and removed, every younger entry is
untouched. -/
theorem checkTimeouts_wf (s : RequestPipeline) (now : Int) (hwf : WF s) :
    WF (s.checkTimeouts now) ∧
      ∀ (uid : Nat) (o : Outcome), s.outcomes[uid]? = some (some o) →
        (s.checkTimeouts now).outcomes[uid]? = some (some o) := by
  obtain ⟨hnd, hpend, hrev⟩ := hwf
  unfold RequestPipeline.checkTimeouts
  refine ⟨⟨?_, ?_, ?_⟩, ?_⟩
  · exact hnd.sublist ((List.filter_sublist s.pending).map _)
  · intro e he
    rw [List.mem_filter] at he
    have huntouched : ∀ r ∈ s.pending.filter
        (fun e => decide ((s.config.timeout : Int) < now - e.timestamp)),
        r.uid ≠ e.uid := by
      intro r hr hEq
      rw [List.mem_filter] at hr
      have := List.inj_on_of_nodup_map hnd hr.1 he.1 hEq
      subst this
      rw [hr.2] at he
      simp at he
    rw [foldlSettle_untouched _ _ _ _ huntouched]
    exact hpend e he.1
  · intro uid hlt hsome
    have h0 : s.outcomes[uid]? = some none :=
      foldlSettle_pending_rev _ _ _ _ hsome
    have hlt' : uid < s.outcomes.length := by
      rwa [foldlSettle_length] at hlt
    obtain ⟨e, he, rfl⟩ := hrev uid hlt' h0
    by_cases hexp : decide ((s.config.timeout : Int) < now - e.timestamp) = true
    · exfalso
      have hmem : e ∈ s.pending.filter
          (fun e => decide ((s.config.timeout : Int) < now - e.timestamp)) :=
        List.mem_filter.mpr ⟨he, hexp⟩
      have hset := foldlSettle_settles
        (Outcome.rejected (PipeError.timeoutError s.config.timeout)) _ s.outcomes e hmem h0
      rw [hset] at hsome
      cases hsome
    · refine ⟨e, List.mem_filter.mpr ⟨he, ?_⟩, rfl⟩
      simp only [Bool.not_eq_true] at hexp
      rw [hexp]
      rfl
  · intro uid o h
    exact foldlSettle_mono _ _ _ _ _ h

theorem pde_cons (s : RequestPipeline) (ev : DecodeEvent) (evs : List DecodeEvent) :
    processDecodeEvents s (ev :: evs) =
      if s.crashed then s
      else
        match ev with
        | DecodeEvent.frame p => processDecodeEvents (s.handleFrame p) evs
        | DecodeEvent.error =>
          processDecodeEvents (rejectAllPending s PipeError.decodeError) evs := rfl

/-- Processing the decode events of one `push` call preserves the
exactly-once invariant when no frame makes the handler throw. -/
theorem processDecodeEvents_wf :
    ∀ (evs : List DecodeEvent) (s : RequestPipeline), WF s →
      (∀ p, DecodeEvent.frame p ∈ evs → crashyFrame p = false) →
      WF (processDecodeEvents s evs) ∧
        ∀ (uid : Nat) (o : Outcome), s.outcomes[uid]? = some (some o) →
          (processDecodeEvents s evs).outcomes[uid]? = some (some o) := by
  intro evs
  induction evs with
  | nil => intro s hwf _; exact ⟨hwf, fun uid o h => h⟩
  | cons ev evs ih =>
    intro s hwf hcr
    rw [pde_cons]
    by_cases hc : s.crashed
    · rw [if_pos hc]
      exact ⟨hwf, fun uid o h => h⟩
    · rw [if_neg hc]
      cases ev with
      | frame p =>
        have h1 := handleFrame_wf s p hwf (hcr p (by simp))
        have h2 := ih (s.handleFrame p) h1.1 fun q hq => hcr q (by simp [hq])
        exact ⟨h2.1, fun uid o h => h2.2 uid o (h1.2 uid o h)⟩
      | error =>
        have h1 := rejectAllPending_wf s PipeError.decodeError hwf
        have h2 := ih _ h1.1 fun q hq => hcr q (by simp [hq])
        exact ⟨h2.1, fun uid o h => h2.2 uid o (h1.2 uid o h)⟩

/-- Unfolding lemmas for `RequestPipeline.step`, one per event. -/
theorem step_send_eq (s : RequestPipeline) (frame : List Nat) (opcode : Nat) (now : Int) :
    s.step (Event.send frame opcode now) =
      if s.crashed then s else s.send frame opcode now := rfl

theorem step_writeResult_eq (s : RequestPipeline) (uid : Nat) (id : Int) (err : Bool) :
    s.step (Event.writeResult uid id err) =
      if s.crashed then s
      else if err then
        { s with pending := mapDelete s.pending id,
                 outcomes := settleOnce s.outcomes uid
                   (Outcome.rejected PipeError.writeError) }
      else s := rfl

theorem step_data_eq (s : RequestPipeline) (chunk : List Nat) :
    s.step (Event.data chunk) =
      if s.crashed then s
      else if s.listenersOn then
        processDecodeEvents { s with decoder := (s.decoder.push chunk).2 }
          (s.decoder.push chunk).1
      else { s with decoder := (s.decoder.push chunk).2 } := rfl

theorem step_timeoutTick_eq (s : RequestPipeline) (now : Int) :
    s.step (Event.timeoutTick now) =
      if s.crashed then s
      else if s.timerOn then s.checkTimeouts now else s := rfl

theorem step_socketError_eq (s : RequestPipeline) :
    s.step Event.socketError =
      if s.crashed then s else rejectAllPending s PipeError.socketError := rfl

theorem step_socketClose_eq (s : RequestPipeline) :
    s.step Event.socketClose =
      if s.crashed then s else rejectAllPending s PipeError.connectionClosed := rfl

theorem step_destroy_eq (s : RequestPipeline) :
    s.step Event.destroy = if s.crashed then s else s.destroy := rfl

/-- C3 (amended): under the exactly-once invariant `WF`, every valid
pipeline event — matching frame, write-failure callback, timeout sweep,
decoder fatal error, transport error/close, destroy — preserves the
invariant and never changes an already-settled promise.  Hence each
entry created by `send` is removed at most once, settled at most once,
and never left removed-but-unsettled, including when a write-error
callback races a frame that already settled the entry (validity
requires error-tagged frames to carry complete bodies and the allocated
sequence id not to collide with a still-pending one). -/
theorem claim_C3_exactly_once (s : RequestPipeline) (ev : Event)
    (hwf : WF s) (hv : ValidEvent s ev) :
    WF (s.step ev) ∧
      ∀ (uid : Nat) (o : Outcome), s.outcomes[uid]? = some (some o) →
        (s.step ev).outcomes[uid]? = some (some o) := by
  by_cases hc : s.crashed = true
  · have hstep : s.step ev = s := by
      unfold RequestPipeline.step
      rw [if_pos hc]
    rw [hstep]
    exact ⟨hwf, fun uid o h => h⟩
  · cases ev with
    | send frame opcode now =>
      rw [step_send_eq, if_neg hc]
      exact send_wf s frame opcode now hwf hv
    | writeResult uid id err =>
      rw [step_writeResult_eq, if_neg hc]
      cases err with
      | false =>
        rw [if_neg (by simp)]
        exact ⟨hwf, fun uid o h => h⟩
      | true =>
        rw [if_pos rfl]
        obtain ⟨hu, hpair⟩ := hv rfl
        exact writeResult_wf s uid id hwf hu hpair
    | data chunk =>
      rw [step_data_eq, if_neg hc]
      by_cases hl : s.listenersOn = true
      · rw [if_pos hl]
        refine processDecodeEvents_wf (s.decoder.push chunk).1
          { s with decoder := (s.decoder.push chunk).2 } hwf ?_
        intro p hp
        have := List.all_eq_true.mp hv _ hp
        simpa using this
      · rw [if_neg hl]
        exact ⟨hwf, fun uid o h => h⟩
    | timeoutTick now =>
      rw [step_timeoutTick_eq, if_neg hc]
      by_cases ht : s.timerOn = true
      · rw [if_pos ht]
        exact checkTimeouts_wf s now hwf
      · rw [if_neg ht]
        exact ⟨hwf, fun uid o h => h⟩
    | socketError =>
      rw [step_socketError_eq, if_neg hc]
      exact rejectAllPending_wf s PipeError.socketError hwf
    | socketClose =>
      rw [step_socketClose_eq, if_neg hc]
      exact rejectAllPending_wf s PipeError.connectionClosed hwf
    | destroy =>
      rw [step_destroy_eq, if_neg hc]
      unfold RequestPipeline.destroy
      exact rejectAllPending_wf
        { s with timerOn := false, listenersOn := false, decoder := s.decoder.reset }
        PipeError.destroyed hwf

/-- In any one drain, the fatal error event is emitted at most once and
always last, and it leaves an empty buffer. -/
theorem drainFuel_error_last (max : Nat) :
    ∀ (fuel : Nat) (buf : List Nat),
      DecodeEvent.error ∈ (FrameDecoder.drainFuel max fuel buf).1 →
      ∃ evs, (FrameDecoder.drainFuel max fuel buf).1 = evs ++ [DecodeEvent.error] ∧
        DecodeEvent.error ∉ evs ∧ (FrameDecoder.drainFuel max fuel buf).2 = [] := by
  intro fuel
  induction fuel with
  | zero =>
    intro buf h
    cases h
  | succ fuel ih =>
    intro buf h
    rw [FrameDecoder.drainFuel] at h ⊢
    by_cases h4 : 4 ≤ buf.length
    · rw [if_pos h4] at h ⊢
      by_cases hbig : readUInt32LE buf > max
      · rw [if_pos hbig] at h ⊢
        exact ⟨[], rfl, by simp, rfl⟩
      · rw [if_neg hbig] at h ⊢
        by_cases hinc : buf.length < 4 + readUInt32LE buf
        · rw [if_pos hinc] at h
          cases h
        · rw [if_neg hinc] at h ⊢
          simp only [List.mem_cons] at h
          rcases h with h | h
          · cases h
          · obtain ⟨evs, h1, h2, h3⟩ := ih _ h
            exact ⟨DecodeEvent.frame ((buf.drop 4).take (readUInt32LE buf)) :: evs,
              by rw [h1]; rfl, by simp [h2], h3⟩
    · rw [if_neg h4] at h
      cases h

/-- C2 counterexample input: a fresh decoder with `maxFrameSize = 10`;
the first push declares an oversized frame (fatal error), the second
push — with no intervening `reset()` — is processed normally and emits
a frame event, contradicting the claim that no bytes are processed
and no frame event is emitted until `reset` is invoked. -/
theorem claim_C2_counterexample :
    ((FrameDecoder.new 10).push [11, 0, 0, 0]).1 = [DecodeEvent.error] ∧
    (((FrameDecoder.new 10).push [11, 0, 0, 0]).2.push [0, 0, 0, 0]).1 =
      [DecodeEvent.frame []] := by
  decide

/-- C2 (amended): when a push observes an oversized declared length it
emits exactly one fatal decode error, as the last event of that push
call, discards the entire buffer (`pendingBytes` becomes 0), and
processes no further bytes from that call; the resulting state equals
the reset state, so subsequent pushes are processed afresh (no latch
until `reset()`). -/
theorem claim_C2_oversize (d : FrameDecoder) (chunk : List Nat)
    (herr : DecodeEvent.error ∈ (d.push chunk).1) :
    (∃ evs, (d.push chunk).1 = evs ++ [DecodeEvent.error] ∧
      DecodeEvent.error ∉ evs) ∧
    (d.push chunk).2.pendingBytes = 0 ∧
    (d.push chunk).2 = d.reset := by
  simp only [FrameDecoder.push] at herr ⊢
  obtain ⟨evs, h1, h2, h3⟩ := drainFuel_error_last d.maxFrameSize _ _ herr
  rw [List.length_append] at h3
  refine ⟨⟨evs, h1, h2⟩, ?_, ?_⟩
  · simp [FrameDecoder.pendingBytes, FrameDecoder.drain, h3]
  · simp [FrameDecoder.reset, FrameDecoder.drain, h3]

/-- C2 witness: the amended oversize behaviour at a concrete input. -/
theorem claim_C2_oversize_witness :
    DecodeEvent.error ∈ ((FrameDecoder.new 10).push [11, 0, 0, 0]).1 ∧
    ((∃ evs, ((FrameDecoder.new 10).push [11, 0, 0, 0]).1 =
        evs ++ [DecodeEvent.error] ∧ DecodeEvent.error ∉ evs) ∧
      ((FrameDecoder.new 10).push [11, 0, 0, 0]).2.pendingBytes = 0 ∧
      ((FrameDecoder.new 10).push [11, 0, 0, 0]).2 = (FrameDecoder.new 10).reset) :=
  ⟨by decide, claim_C2_oversize (FrameDecoder.new 10) [11, 0, 0, 0] (by decide)⟩

/-- C6: for every payload within the size limit and every way of
splitting its encoded frame into chunks, pushing the chunks in order
into a fresh decoder emits exactly one frame event carrying the
original payload and no error event, draining the buffer. -/
theorem claim_C6_fragmentation (max : Nat) (p : List Nat) (chunks : List (List Nat))
    (hmax : p.length ≤ max) (h32 : p.length < 2 ^ 32)
    (hflat : chunks.flatten = wireFrame p) :
    (FrameDecoder.new max).pushAll chunks =
      ([DecodeEvent.frame p], FrameDecoder.new max) :=
  pushAll_fragmentation max p chunks hmax h32 hflat

/-- C6 witness: the frame `[7, 8]` split into 1-byte chunks and a split
inside the 4-byte header. -/
theorem claim_C6_fragmentation_witness :
    ((2 : Nat) ≤ 100 ∧ (2 : Nat) < 2 ^ 32 ∧
      [[2], [0], [0, 0], [7], [8]].flatten = wireFrame [7, 8]) ∧
    (FrameDecoder.new 100).pushAll [[2], [0], [0, 0], [7], [8]] =
      ([DecodeEvent.frame [7, 8]], FrameDecoder.new 100) :=
  ⟨⟨by decide, by decide, by decide⟩,
    claim_C6_fragmentation 100 [7, 8] [[2], [0], [0, 0], [7], [8]]
      (by decide) (by decide) (by decide)⟩

/-- C7: pushing the concatenation of `N` in-bounds encoded frames into
a fresh decoder in one call emits exactly the `N` frame events in
order, with the matching payloads, and leaves `pendingBytes = 0`. -/
theorem claim_C7_coalescing (max : Nat) (ps : List (List Nat))
    (h : ∀ p ∈ ps, p.length ≤ max ∧ p.length < 2 ^ 32) :
    (FrameDecoder.new max).push (ps.map wireFrame).flatten =
      (ps.map DecodeEvent.frame, FrameDecoder.new max) ∧
    ((FrameDecoder.new max).push (ps.map wireFrame).flatten).2.pendingBytes = 0 := by
  have hdrain := drain_flatten_wireFrames max ps h
  constructor
  · simp only [FrameDecoder.push, FrameDecoder.new, List.nil_append, hdrain]
  · simp only [FrameDecoder.push, FrameDecoder.new, List.nil_append, hdrain,
      FrameDecoder.pendingBytes, List.length_nil]

/-- C7 witness: three coalesced frames, one with an empty payload. -/
theorem claim_C7_coalescing_witness :
    (∀ p ∈ [[64, 1], [65], ([] : List Nat)], p.length ≤ 100 ∧ p.length < 2 ^ 32) ∧
    (FrameDecoder.new 100).push
        ([[64, 1], [65], ([] : List Nat)].map wireFrame).flatten =
      ([DecodeEvent.frame [64, 1], DecodeEvent.frame [65], DecodeEvent.frame []],
        FrameDecoder.new 100) :=
  ⟨by decide, (claim_C7_coalescing 100 [[64, 1], [65], []] (by decide)).1⟩

/-- C9: a zero-length decoded frame only logs a warning: the frame
handler returns with the whole pipeline state unchanged except the
warning count — no pending entry is removed, resolved, or rejected,
even when pending entries exist. -/
theorem claim_C9_empty_frame (s : RequestPipeline) :
    s.handleFrame [] = { s with warnCount := s.warnCount + 1 } ∧
    (s.handleFrame []).pending = s.pending ∧
    (s.handleFrame []).outcomes = s.outcomes :=
  ⟨rfl, rfl, rfl⟩

/-- C4: with the pending set at or above `maxPending`, `send` rejects
the fresh promise with the backpressure error and has no other side
effect — sequence counter, pending set, write log and decoder are all
unchanged; below `maxPending` the request is allocated the next
sequence id, recorded as pending, and its frame is written to the
socket. -/
theorem claim_C4_backpressure (s : RequestPipeline) (frame : List Nat)
    (opcode : Nat) (now : Int) :
    (s.config.maxPending ≤ s.pending.length →
      s.send frame opcode now =
        { s with outcomes := s.outcomes ++
            [some (Outcome.rejected (PipeError.backpressure s.pending.length))] }) ∧
    (s.pending.length < s.config.maxPending →
      s.send frame opcode now =
        { s with
          sequenceId := nextSequenceId s.sequenceId,
          pending := mapSet s.pending
            { id := nextSequenceId s.sequenceId, uid := s.outcomes.length,
              opcode := opcode, timestamp := now },
          outcomes := s.outcomes ++ [none],
          writeLog := s.writeLog ++ [frame] }) := by
  unfold RequestPipeline.send
  constructor
  · intro h
    rw [if_pos h]
  · intro h
    rw [if_neg (by omega)]

/-- C4 witness: with `maxPending = K = 2`, the `K`-th concurrently
outstanding request is written and the `K+1`-th is rejected with the
backpressure error and no transport write. -/
theorem claim_C4_backpressure_witness :
    (sendOnceState.pending.length < cfgK2.maxPending ∧
      sendOnceState.send [9] 64 0 =
        { sendOnceState with
          sequenceId := nextSequenceId sendOnceState.sequenceId,
          pending := mapSet sendOnceState.pending
            { id := nextSequenceId sendOnceState.sequenceId,
              uid := sendOnceState.outcomes.length, opcode := 64, timestamp := 0 },
          outcomes := sendOnceState.outcomes ++ [none],
          writeLog := sendOnceState.writeLog ++ [[9]] }) ∧
    (cfgK2.maxPending ≤ sendTwiceState.pending.length ∧
      sendTwiceState.send [9] 64 0 =
        { sendTwiceState with outcomes := sendTwiceState.outcomes ++
            [some (Outcome.rejected
              (PipeError.backpressure sendTwiceState.pending.length))] }) :=
  ⟨⟨by decide, (claim_C4_backpressure sendOnceState [9] 64 0).2 (by decide)⟩,
   ⟨by decide, (claim_C4_backpressure sendTwiceState [9] 64 0).1 (by decide)⟩⟩

/-- C10: `destroy` is idempotent as a state transformer; the first call
stops the timeout sweep, empties the pending map, resets the decoder,
rejects every then-pending (necessarily unsettled) entry exactly once
with the destroyed error, and never re-settles an already settled
promise — so a second call, or a call after everything is settled,
invokes no continuation again. -/
theorem claim_C10_destroy_idempotent (s : RequestPipeline) (hwf : WF s) :
    s.destroy.destroy = s.destroy ∧
    s.destroy.timerOn = false ∧
    s.destroy.pending = [] ∧
    s.destroy.decoder.pendingBytes = 0 ∧
    (∀ e ∈ s.pending,
      s.destroy.outcomes[e.uid]? =
        some (some (Outcome.rejected PipeError.destroyed))) ∧
    (∀ (uid : Nat) (o : Outcome), s.outcomes[uid]? = some (some o) →
      s.destroy.outcomes[uid]? = some (some o)) := by
  obtain ⟨hnd, hpend, hrev⟩ := hwf
  refine ⟨rfl, rfl, rfl, rfl, ?_, ?_⟩
  · intro e he
    exact foldlSettle_settles (Outcome.rejected PipeError.destroyed)
      s.pending s.outcomes e he (hpend e he)
  · intro uid o h
    exact foldlSettle_mono _ _ _ _ _ h

/-- C10 witness: destroying a pipeline with one in-flight request. -/
theorem claim_C10_destroy_idempotent_witness :
    WF sendOnceState ∧
    (sendOnceState.destroy.destroy = sendOnceState.destroy ∧
      sendOnceState.destroy.timerOn = false ∧
      sendOnceState.destroy.pending = [] ∧
      sendOnceState.destroy.decoder.pendingBytes = 0 ∧
      (∀ e ∈ sendOnceState.pending,
        sendOnceState.destroy.outcomes[e.uid]? =
          some (some (Outcome.rejected PipeError.destroyed))) ∧
      (∀ (uid : Nat) (o : Outcome),
        sendOnceState.outcomes[uid]? = some (some o) →
          sendOnceState.destroy.outcomes[uid]? = some (some o))) :=
  ⟨by decide, claim_C10_destroy_idempotent sendOnceState (by decide)⟩

/-- C3 counterexample: one accepted send, then a decoded
`RESPONSE_ERROR` frame with an empty body.  `handleFrame` deletes the
oldest pending entry and then throws inside the `PayloadReader` reads,
so the entry is removed (`pending = []`) while its promise is never
settled (`outcomes = [none]`), violating "no entry is left both removed
and unsettled". -/
theorem claim_C3_counterexample :
    (((RequestPipeline.new DEFAULT_CONFIG).step
        (Event.send [1, 0, 0, 0, 64] 64 0)).step
        (Event.data [1, 0, 0, 0, 241])).pending = [] ∧
    (((RequestPipeline.new DEFAULT_CONFIG).step
        (Event.send [1, 0, 0, 0, 64] 64 0)).step
        (Event.data [1, 0, 0, 0, 241])).outcomes = [none] ∧
    (((RequestPipeline.new DEFAULT_CONFIG).step
        (Event.send [1, 0, 0, 0, 64] 64 0)).step
        (Event.data [1, 0, 0, 0, 241])).crashed = true := by
  decide

/-- C3 witness: the invariant-preservation theorem at a concrete state
and event. -/
theorem claim_C3_exactly_once_witness :
    WF sendOnceState ∧ ValidEvent sendOnceState (Event.send [9] 64 0) ∧
    (WF (sendOnceState.step (Event.send [9] 64 0)) ∧
      ∀ (uid : Nat) (o : Outcome),
        sendOnceState.outcomes[uid]? = some (some o) →
          (sendOnceState.step (Event.send [9] 64 0)).outcomes[uid]? =
            some (some o)) :=
  ⟨by decide, by decide,
    claim_C3_exactly_once sendOnceState (Event.send [9] 64 0) (by decide) (by decide)⟩

theorem land_mask32 (u : Nat) : Nat.land u (2 ^ 32 - 1) = u % 2 ^ 32 := by
  have hland : Nat.land u (2 ^ 32 - 1) = u &&& (2 ^ 32 - 1) := rfl
  rw [hland]
  apply Nat.eq_of_testBit_eq
  intro i
  rw [Nat.testBit_land, Nat.testBit_mod_two_pow, Nat.testBit_two_pow_sub_one]
  exact Bool.and_comm _ _

theorem toInt32_bounds (x : Int) : -(2 ^ 31) ≤ toInt32 x ∧ toInt32 x < 2 ^ 31 := by
  unfold toInt32
  have h1 : (0 : Int) ≤ x % 2 ^ 32 := Int.emod_nonneg x (by norm_num)
  have h2 : x % 2 ^ 32 < 2 ^ 32 := Int.emod_lt_of_pos x (by norm_num)
  split <;> omega

theorem toInt32_add_cancel (a b : Int) : toInt32 (toInt32 a + b) = toInt32 (a + b) := by
  unfold toInt32
  have h1 : (0 : Int) ≤ a % 2 ^ 32 := Int.emod_nonneg a (by norm_num)
  have h2 : a % 2 ^ 32 < 2 ^ 32 := Int.emod_lt_of_pos a (by norm_num)
  have h3 : (a % 2 ^ 32 + b) % 2 ^ 32 = (a + b) % 2 ^ 32 := by omega
  have h4 : (a % 2 ^ 32 - 2 ^ 32 + b) % 2 ^ 32 = (a + b) % 2 ^ 32 := by omega
  split
  · split <;> · split <;> omega
  · split <;> · split <;> omega

theorem toInt32_period (x : Int) : toInt32 (x + 2 ^ 32) = toInt32 x := by
  unfold toInt32
  have h : (x + 2 ^ 32) % 2 ^ 32 = x % 2 ^ 32 := by omega
  rw [h]

theorem nextSequenceId_eq_toInt32 (x : Int) : nextSequenceId x = toInt32 (x + 1) := by
  unfold nextSequenceId jsBitAnd toUint32
  have h0 : (0 : Int) ≤ (x + 1) % 2 ^ 32 := Int.emod_nonneg _ (by norm_num)
  have h1 : (x + 1) % 2 ^ 32 < 2 ^ 32 := Int.emod_lt_of_pos _ (by norm_num)
  have h4 : ((0xffffffff : Int) % 2 ^ 32).toNat = 2 ^ 32 - 1 := by decide
  rw [h4, land_mask32, Nat.mod_eq_of_lt (by omega)]
  unfold toInt32
  split
  · split
    · omega
    · omega
  · split
    · omega
    · omega

theorem allocSequenceIds_eq (n : Nat) : allocSequenceIds n = toInt32 n := by
  induction n with
  | zero =>
    show (0 : Int) = toInt32 0
    unfold toInt32
    norm_num
  | succ n ih =>
    rw [allocSequenceIds, ih, nextSequenceId_eq_toInt32, toInt32_add_cancel]
    norm_num

/-- C8 counterexample: after `2^31` allocations the sequence counter is
`-2^31`: JavaScript `&` converts its operands through `ToInt32`, so
`(0x7fffffff + 1) & 0xffffffff = -0x80000000`.  The allocated value is
negative — outside `[0, 2^32 - 1]` — and differs from the
`(prev + 1) mod 2^32 = 2^31` the claim predicts. -/
theorem claim_C8_counterexample :
    allocSequenceIds (2 ^ 31) = -(2 ^ 31) ∧
    allocSequenceIds (2 ^ 31) < 0 ∧
    allocSequenceIds (2 ^ 31) ≠ (allocSequenceIds (2 ^ 31 - 1) + 1) % 2 ^ 32 := by
  rw [allocSequenceIds_eq, allocSequenceIds_eq]
  unfold toInt32
  norm_num

/-- C8 (amended): each accepted `send` allocates
`(prev + 1) & 0xffffffff`, which is `ToInt32(prev + 1)`: the counter
wraps at the 32-bit *signed* boundary.  After `n` allocations the
counter equals `ToInt32 n`; every allocated value lies in
`[-2^31, 2^31 - 1]`; the successor of `2^31 - 1` is `-2^31`; and the
counter is periodic with period `2^32`. -/
theorem claim_C8_sequence_wrap (n : Nat) (s : RequestPipeline) (frame : List Nat)
    (opcode : Nat) (now : Int) :
    allocSequenceIds n = toInt32 n ∧
    (-(2 ^ 31) ≤ allocSequenceIds n ∧ allocSequenceIds n < 2 ^ 31) ∧
    nextSequenceId (2 ^ 31 - 1) = -(2 ^ 31) ∧
    allocSequenceIds (n + 2 ^ 32) = allocSequenceIds n ∧
    (s.send frame opcode now).sequenceId =
      (if s.config.maxPending ≤ s.pending.length then s.sequenceId
       else nextSequenceId s.sequenceId) := by
  refine ⟨allocSequenceIds_eq n, ?_, ?_, ?_, ?_⟩
  · rw [allocSequenceIds_eq]
    exact toInt32_bounds n
  · rw [nextSequenceId_eq_toInt32]
    unfold toInt32
    norm_num
  · rw [allocSequenceIds_eq, allocSequenceIds_eq]
    push_cast
    exact toInt32_period n
  · unfold RequestPipeline.send
    by_cases h : s.config.maxPending ≤ s.pending.length
    · rw [if_pos h, if_pos h]
    · rw [if_neg h, if_neg h]

/-- C5: with an unsettled oldest pending entry, a decoded frame tagged
`RESPONSE_ERROR` whose body is an error-code byte followed by a
u16-length-prefixed message fails that entry with an error carrying the
code and the message bytes verbatim; a frame with any other tag
resolves that entry with the payload bytes after the tag byte. -/
theorem claim_C5_error_body (s : RequestPipeline) (e : PendingEntry)
    (rest : List PendingEntry) (hp : s.pending = e :: rest)
    (h0 : s.outcomes[e.uid]? = some none) :
    (∀ (code lo hi : Nat) (msg : List Nat), msg.length = lo + 256 * hi →
      (s.handleFrame (RESPONSE_ERROR :: code :: lo :: hi :: msg)).pending = rest ∧
      (s.handleFrame (RESPONSE_ERROR :: code :: lo :: hi :: msg)).outcomes[e.uid]? =
        some (some (Outcome.rejected (PipeError.mindFry code msg)))) ∧
    (∀ (tag : Nat) (data : List Nat), tag ≠ RESPONSE_ERROR →
      (s.handleFrame (tag :: data)).pending = rest ∧
      (s.handleFrame (tag :: data)).outcomes[e.uid]? =
        some (some (Outcome.resolved data))) := by
  constructor
  · intro code lo hi msg hlen
    have hparse : parseErrorBody (code :: lo :: hi :: msg) = some (code, msg) := by
      rw [parseErrorBody, ← hlen, List.take_length]
    rw [handleFrame_errFrame s _ e rest code msg hp hparse]
    exact ⟨rfl, settleOnce_pending s.outcomes e.uid _ h0⟩
  · intro tag data htag
    rw [handleFrame_success s tag data e rest hp htag]
    exact ⟨rfl, settleOnce_pending s.outcomes e.uid _ h0⟩

/-- C5 witness: the concrete entry of `sendOnceState`, failed with code
7 and message bytes `[104, 105]`, and resolved with payload `[1, 2]`. -/
theorem claim_C5_error_body_witness :
    (sendOnceState.pending =
      { id := 1, uid := 0, opcode := 64, timestamp := 0 } :: [] ∧
      sendOnceState.outcomes[0]? = some none) ∧
    ((sendOnceState.handleFrame
        (RESPONSE_ERROR :: 7 :: 2 :: 0 :: [104, 105])).pending = [] ∧
      (sendOnceState.handleFrame
        (RESPONSE_ERROR :: 7 :: 2 :: 0 :: [104, 105])).outcomes[0]? =
        some (some (Outcome.rejected (PipeError.mindFry 7 [104, 105])))) ∧
    ((sendOnceState.handleFrame (240 :: [1, 2])).pending = [] ∧
      (sendOnceState.handleFrame (240 :: [1, 2])).outcomes[0]? =
        some (some (Outcome.resolved [1, 2]))) :=
  ⟨⟨by decide, by decide⟩,
    (claim_C5_error_body sendOnceState
      { id := 1, uid := 0, opcode := 64, timestamp := 0 } []
      (by decide) (by decide)).1 7 2 0 [104, 105] (by decide),
    (claim_C5_error_body sendOnceState
      { id := 1, uid := 0, opcode := 64, timestamp := 0 } []
      (by decide) (by decide)).2 240 [1, 2] (by decide)⟩

theorem toInt32_inj (a b : Nat) (ha : a < 2 ^ 32) (hb : b < 2 ^ 32)
    (h : toInt32 a = toInt32 b) : a = b := by
  unfold toInt32 at h
  have h1 : ((a : Int)) % 2 ^ 32 = (a : Int) := Int.emod_eq_of_lt (by omega) (by omega)
  have h2 : ((b : Int)) % 2 ^ 32 = (b : Int) := Int.emod_eq_of_lt (by omega) (by omega)
  rw [h1, h2] at h
  split at h <;> split at h <;> omega

theorem fresh_new (cfg : PipelineConfig) :
    FreshPipeline cfg 0 (RequestPipeline.new cfg) := by
  refine ⟨rfl, rfl, rfl, ?_, rfl, rfl, rfl, rfl⟩
  show (0 : Int) = toInt32 ((0 : Nat) : Int)
  unfold toInt32
  norm_num

theorem sendAll_fresh :
    ∀ (reqs : List (List Nat × Nat × Int)) (cfg : PipelineConfig) (j : Nat)
      (s : RequestPipeline),
      FreshPipeline cfg j s →
      j + reqs.length ≤ cfg.maxPending →
      j + reqs.length < 2 ^ 32 →
      FreshPipeline cfg (j + reqs.length) (s.sendAll reqs) := by
  intro reqs
  induction reqs with
  | nil =>
    intro cfg j s hf _ _
    exact hf
  | cons r rs ih =>
    intro cfg j s hf hmax h32
    obtain ⟨hcfg, hcr, hl, hseq, hout, huid, hid, hdec⟩ := hf
    obtain ⟨frame, opcode, now⟩ := r
    simp only [List.length_cons] at hmax h32
    have hplen : s.pending.length = j := by
      have := congrArg List.length huid
      simpa using this
    have hid' : nextSequenceId s.sequenceId = toInt32 ((j : Int) + 1) := by
      rw [hseq, nextSequenceId_eq_toInt32, toInt32_add_cancel]
    have hfreshid : ∀ e ∈ s.pending, e.id ≠ nextSequenceId s.sequenceId := by
      intro e he hEq
      have hmem : e.id ∈ s.pending.map PendingEntry.id :=
        List.mem_map_of_mem PendingEntry.id he
      rw [hid] at hmem
      obtain ⟨t, ht, hteq⟩ := List.mem_map.mp hmem
      rw [List.mem_range'_1] at ht
      obtain ⟨ht1, ht2⟩ := ht
      rw [hEq, hid'] at hteq
      have hcast : ((j : Int) + 1) = ((j + 1 : Nat) : Int) := by push_cast; ring
      rw [hcast] at hteq
      have := toInt32_inj t (j + 1) (by omega) (by omega) hteq
      omega
    have hcm : s.config.maxPending = cfg.maxPending := by rw [hcfg]
    have hsend : s.send frame opcode now =
        { s with
          sequenceId := nextSequenceId s.sequenceId,
          pending := s.pending ++
            [{ id := nextSequenceId s.sequenceId, uid := s.outcomes.length,
               opcode := opcode, timestamp := now }],
          outcomes := s.outcomes ++ [none],
          writeLog := s.writeLog ++ [frame] } := by
      unfold RequestPipeline.send
      rw [if_neg (by omega), mapSet_eq_append s.pending _ (fun e he => hfreshid e he)]
    have hstep : FreshPipeline cfg (j + 1) (s.send frame opcode now) := by
      rw [hsend]
      refine ⟨hcfg, hcr, hl, ?_, ?_, ?_, ?_, hdec⟩
      · show nextSequenceId s.sequenceId = toInt32 ((j + 1 : Nat) : Int)
        rw [hid']
        congr 1
      · show s.outcomes ++ [none] = List.replicate (j + 1) none
        rw [hout, List.replicate_succ']
      · show (s.pending ++ [_]).map PendingEntry.uid = List.range (j + 1)
        rw [List.map_append, huid]
        have hlen : s.outcomes.length = j := by rw [hout]; simp
        simp [List.range_succ, hlen]
      · show (s.pending ++ [_]).map PendingEntry.id =
          (List.range' 1 (j + 1)).map (fun (t : Nat) => toInt32 (t : Int))
        have hnew : nextSequenceId s.sequenceId = toInt32 ((1 + 1 * j : Nat) : Int) := by
          rw [hid']
          congr 1
          omega
        rw [List.map_append, hid, List.range'_concat, List.map_append,
          List.map_cons, List.map_nil, List.map_cons, List.map_nil, hnew]
    have := ih cfg (j + 1) _ hstep (by omega) (by omega)
    have hlen : j + 1 + rs.length = j + (rs.length + 1) := by omega
    rw [hlen] at this
    simpa [RequestPipeline.sendAll] using this

theorem handleFrame_respOutcome (s : RequestPipeline) (p : List Nat)
    (e : PendingEntry) (rest : List PendingEntry)
    (hp : s.pending = e :: rest) (hne : p ≠ [])
    (hcr : crashyFrame p = false) :
    s.handleFrame p =
      { s with pending := rest,
               outcomes := settleOnce s.outcomes e.uid (respOutcome p) } := by
  cases p with
  | nil => exact absurd rfl hne
  | cons opcode data =>
    by_cases hop : opcode = RESPONSE_ERROR
    · subst hop
      cases hparse : parseErrorBody data with
      | some pr =>
        obtain ⟨code, message⟩ := pr
        rw [handleFrame_errFrame s data e rest code message hp hparse]
        have hro : respOutcome (RESPONSE_ERROR :: data) =
            Outcome.rejected (PipeError.mindFry code message) := by
          simp [respOutcome, hparse]
        rw [hro]
      | none =>
        exfalso
        simp [crashyFrame, hparse] at hcr
    · rw [handleFrame_success s opcode data e rest hp hop]
      have hro : respOutcome (opcode :: data) = Outcome.resolved data := by
        simp [respOutcome, hop]
      rw [hro]

theorem getD_mem_of_lt {l : List PendingEntry} {i : Nat} (h : i < l.length) :
    l.getD i default ∈ l := by
  rw [List.getD_eq_getElem?_getD, List.getElem?_eq_getElem h]
  exact List.getElem_mem h

/-- Settling a prefix of frames: processing `ps` decoded frames (all
nonempty and non-throwing) against a pending list with distinct,
unsettled creation indices removes exactly the first `ps.length`
entries and settles the `i`-th oldest entry with the `i`-th frame's
response outcome, touching no other promise. -/
theorem processFrames_spec :
    ∀ (ps : List (List Nat)) (s : RequestPipeline),
      s.crashed = false →
      (∀ p ∈ ps, p ≠ [] ∧ crashyFrame p = false) →
      ps.length ≤ s.pending.length →
      (∀ e ∈ s.pending, s.outcomes[e.uid]? = some none) →
      (s.pending.map PendingEntry.uid).Nodup →
      (processDecodeEvents s (ps.map DecodeEvent.frame)).pending =
        s.pending.drop ps.length ∧
      (∀ i < ps.length,
        (processDecodeEvents s (ps.map DecodeEvent.frame)).outcomes[
          (s.pending.getD i default).uid]? =
          some (some (respOutcome (ps.getD i [])))) ∧
      (∀ v : Nat, (∀ i < ps.length, v ≠ (s.pending.getD i default).uid) →
        (processDecodeEvents s (ps.map DecodeEvent.frame)).outcomes[v]? =
          s.outcomes[v]?) := by
  intro ps
  induction ps with
  | nil =>
    intro s _ _ _ _ _
    exact ⟨rfl, fun i hi => absurd hi (by simp), fun v _ => rfl⟩
  | cons p ps ih =>
    intro s hcr hps hlen hpend hnd
    cases hp : s.pending with
    | nil =>
      exfalso
      rw [hp] at hlen
      simp at hlen
    | cons e rest =>
      have hhf : s.handleFrame p =
          { s with pending := rest,
                   outcomes := settleOnce s.outcomes e.uid (respOutcome p) } :=
        handleFrame_respOutcome s p e rest hp (hps p (by simp)).1 (hps p (by simp)).2
      have he0 : s.outcomes[e.uid]? = some none := hpend e (by rw [hp]; simp)
      have hndcons : ((e :: rest).map PendingEntry.uid).Nodup := hp ▸ hnd
      have hndtail : (rest.map PendingEntry.uid).Nodup := by
        rw [List.map_cons, List.nodup_cons] at hndcons
        exact hndcons.2
      have heuid : e.uid ∉ rest.map PendingEntry.uid := by
        rw [List.map_cons, List.nodup_cons] at hndcons
        exact hndcons.1
      have hproc : processDecodeEvents s ((p :: ps).map DecodeEvent.frame) =
          processDecodeEvents (s.handleFrame p) (ps.map DecodeEvent.frame) := by
        rw [List.map_cons, pde_cons, if_neg (by rw [hcr]; simp)]
      have hih := ih (s.handleFrame p)
        (by rw [hhf]; exact hcr)
        (fun q hq => hps q (by simp [hq]))
        (by rw [hhf]; show ps.length ≤ rest.length
            rw [hp] at hlen; simp at hlen; omega)
        (by rw [hhf]
            intro e' he'
            show (settleOnce s.outcomes e.uid (respOutcome p))[e'.uid]? = some none
            have hne : e'.uid ≠ e.uid := by
              intro hEq
              exact heuid (hEq ▸ List.mem_map_of_mem PendingEntry.uid he')
            rw [settleOnce_getElem?_ne _ _ _ _ hne]
            exact hpend e' (by rw [hp]; exact List.mem_cons_of_mem e he'))
        (by rw [hhf]; exact hndtail)
      rw [hhf] at hih
      obtain ⟨ih1, ih2, ih3⟩ := hih
      rw [hproc, hhf]
      refine ⟨?_, ?_, ?_⟩
      · rw [ih1]
        rfl
      · intro i hi
        cases i with
        | zero =>
          show (processDecodeEvents _ _).outcomes[e.uid]? =
            some (some (respOutcome p))
          rw [ih3 e.uid ?hno]
          case hno =>
            intro i' hi' hEq
            have hmem : rest.getD i' default ∈ rest :=
              getD_mem_of_lt (by rw [hp] at hlen; simp at hlen; omega)
            exact heuid (hEq ▸ List.mem_map_of_mem PendingEntry.uid hmem)
          exact settleOnce_pending s.outcomes e.uid _ he0
        | succ i =>
          show (processDecodeEvents _ _).outcomes[(rest.getD i default).uid]? =
            some (some (respOutcome (ps.getD i [])))
          exact ih2 i (by simp at hi; omega)
      · intro v hv
        have hv0 : v ≠ e.uid := hv 0 (by simp)
        rw [ih3 v ?hrest]
        case hrest =>
          intro i' hi' hEq
          exact hv (i' + 1) (by simp only [List.length_cons]; omega) (by simpa using hEq)
        rw [settleOnce_getElem?_ne _ _ _ _ hv0]

theorem uid_getD (l : List PendingEntry) (n i : Nat)
    (h : l.map PendingEntry.uid = List.range n) (hi : i < n) :
    (l.getD i default).uid = i := by
  have h2 : (l.map PendingEntry.uid)[i]? = some i := by
    rw [h, List.getElem?_range hi]
  rw [List.getElem?_map] at h2
  cases hl : l[i]? with
  | none => rw [hl] at h2; cases h2
  | some e =>
    rw [hl] at h2
    simp only [Option.map_some'] at h2
    rw [List.getD_eq_getElem?_getD, hl]
    exact Option.some.inj h2

/-- C1: on a fresh connection, after a sequence of accepted `send`
calls and the delivery (in one socket chunk) of the first `j` decoded
response frames, the pipeline has settled exactly the `j` oldest
requests, in creation order, each with the outcome decoded from its
corresponding frame (resolution for non-error tags, rejection with the
decoded error otherwise), while every younger request is still pending.
Taking `j = 1, 2, ..., k` shows `R1` is settled before `R2` before
`R3`, each with its own frame's payload. -/
theorem claim_C1_fifo_order (cfg : PipelineConfig)
    (reqs : List (List Nat × Nat × Int)) (resps : List (List Nat))
    (hn : reqs.length ≤ cfg.maxPending) (hn32 : reqs.length < 2 ^ 32)
    (hk : resps.length ≤ reqs.length)
    (hresp : ∀ p ∈ resps, p ≠ [] ∧ crashyFrame p = false ∧
      p.length ≤ cfg.maxFrameSize ∧ p.length < 2 ^ 32) :
    ∀ j ≤ resps.length,
      (((RequestPipeline.new cfg).sendAll reqs).step
          (Event.data (((resps.take j).map wireFrame).flatten))).pending =
        ((RequestPipeline.new cfg).sendAll reqs).pending.drop j ∧
      (∀ i < j,
        (((RequestPipeline.new cfg).sendAll reqs).step
            (Event.data (((resps.take j).map wireFrame).flatten))).outcomes[i]? =
          some (some (respOutcome (resps.getD i [])))) ∧
      (∀ i, j ≤ i → i < reqs.length →
        (((RequestPipeline.new cfg).sendAll reqs).step
            (Event.data (((resps.take j).map wireFrame).flatten))).outcomes[i]? =
          some none) := by
  have hfresh := sendAll_fresh reqs cfg 0 (RequestPipeline.new cfg) (fresh_new cfg)
    (by omega) (by omega)
  rw [Nat.zero_add] at hfresh
  obtain ⟨hcfg, hcr, hl, hseq, hout, huid, hid, hdec⟩ := hfresh
  intro j hj
  have hplen : ((RequestPipeline.new cfg).sendAll reqs).pending.length = reqs.length := by
    have := congrArg List.length huid
    simpa using this
  have htklen : (resps.take j).length = j := by
    rw [List.length_take]
    omega
  have hpush : (((RequestPipeline.new cfg).sendAll reqs).decoder.push
        (((resps.take j).map wireFrame).flatten)) =
      ((resps.take j).map DecodeEvent.frame, FrameDecoder.new cfg.maxFrameSize) := by
    rw [hdec]
    have hdrain := drain_flatten_wireFrames cfg.maxFrameSize (resps.take j)
      (fun p hp => ⟨(hresp p (List.take_subset j resps hp)).2.2.1,
        (hresp p (List.take_subset j resps hp)).2.2.2⟩)
    simp only [FrameDecoder.push, FrameDecoder.new, List.nil_append]
    rw [hdrain]
  have hstep : ((RequestPipeline.new cfg).sendAll reqs).step
        (Event.data (((resps.take j).map wireFrame).flatten)) =
      processDecodeEvents
        { (RequestPipeline.new cfg).sendAll reqs with
          decoder := FrameDecoder.new cfg.maxFrameSize }
        ((resps.take j).map DecodeEvent.frame) := by
    rw [step_data_eq, if_neg (by rw [hcr]; simp), if_pos hl, hpush]
  have hspec := processFrames_spec (resps.take j)
    { (RequestPipeline.new cfg).sendAll reqs with
      decoder := FrameDecoder.new cfg.maxFrameSize }
    hcr
    (fun p hp => ⟨(hresp p (List.take_subset j resps hp)).1,
      (hresp p (List.take_subset j resps hp)).2.1⟩)
    (by rw [htklen]
        show j ≤ ((RequestPipeline.new cfg).sendAll reqs).pending.length
        omega)
    (by intro e he
        show ((RequestPipeline.new cfg).sendAll reqs).outcomes[e.uid]? = some none
        have hmem : e.uid ∈ List.range reqs.length := by
          rw [← huid]
          exact List.mem_map_of_mem PendingEntry.uid he
        rw [List.mem_range] at hmem
        rw [hout, List.getElem?_replicate, if_pos hmem])
    (by show (((RequestPipeline.new cfg).sendAll reqs).pending.map PendingEntry.uid).Nodup
        rw [huid]
        exact List.nodup_range reqs.length)
  obtain ⟨hs1, hs2, hs3⟩ := hspec
  rw [hstep]
  refine ⟨?_, ?_, ?_⟩
  · rw [hs1, htklen]
  · intro i hi
    have hi' : i < (resps.take j).length := by omega
    have := hs2 i hi'
    rw [uid_getD _ reqs.length i huid (by omega)] at this
    rw [this]
    congr 2
    rw [List.getD_eq_getElem?_getD, List.getD_eq_getElem?_getD,
      List.getElem?_take, if_pos hi]
  · intro i hji hi
    rw [hs3 i ?hfar]
    case hfar =>
      intro i' hi' hEq
      rw [uid_getD _ reqs.length i' huid (by omega)] at hEq
      omega
    show ((RequestPipeline.new cfg).sendAll reqs).outcomes[i]? = some none
    rw [hout, List.getElem?_replicate, if_pos hi]

/-- C1 witness: two sends followed by the two coalesced response
frames settle both requests in order. -/
theorem claim_C1_fifo_order_witness :
    (c1Reqs.length ≤ DEFAULT_CONFIG.maxPending ∧ c1Reqs.length < 2 ^ 32 ∧
      c1Resps.length ≤ c1Reqs.length ∧
      (∀ p ∈ c1Resps, p ≠ [] ∧ crashyFrame p = false ∧
        p.length ≤ DEFAULT_CONFIG.maxFrameSize ∧ p.length < 2 ^ 32) ∧
      2 ≤ c1Resps.length) ∧
    ((((RequestPipeline.new DEFAULT_CONFIG).sendAll c1Reqs).step
        (Event.data (((c1Resps.take 2).map wireFrame).flatten))).pending =
      ((RequestPipeline.new DEFAULT_CONFIG).sendAll c1Reqs).pending.drop 2 ∧
      (∀ i < 2,
        (((RequestPipeline.new DEFAULT_CONFIG).sendAll c1Reqs).step
            (Event.data (((c1Resps.take 2).map wireFrame).flatten))).outcomes[i]? =
          some (some (respOutcome (c1Resps.getD i [])))) ∧
      (∀ i, 2 ≤ i → i < c1Reqs.length →
        (((RequestPipeline.new DEFAULT_CONFIG).sendAll c1Reqs).step
            (Event.data (((c1Resps.take 2).map wireFrame).flatten))).outcomes[i]? =
          some none)) :=
  ⟨⟨by decide, by decide, by decide, by decide, by decide⟩,
   claim_C1_fifo_order DEFAULT_CONFIG c1Reqs c1Resps
     (by decide) (by decide) (by decide) (by decide) 2 (by decide)⟩
